import Mathlib

/-!
Shallow embedding of `build.py` (grille-tarifaire): the text normalizer,
the structural readers, the product-tab readers, and the assembler
`build_data`, together with theorems settling the specification claims.

Modelling conventions:
* A Python cell value is `Value`: an `int` (`Value.i`), a `float`
  (`Value.f m e`, the exact decimal `m / 10^e`; the workbook's numbers are
  decimal literals, and Python's `round` half-to-even is taken on that
  exact decimal), or a `str` (`Value.s`).
* An absent cell / `None` is `Option Value` with `none`.
* Code that can raise (`float(...)`, `int(...)` on text) returns
  `Except String _`; a raised exception aborts the enclosing reader,
  exactly as in Python.
* `find_photo` touches the filesystem; readers take the lookup as a
  function parameter `gfp : String → String → Option String`
  (directory name, base name ↦ relative photo path or `none`).
-/

namespace Build

/-- A Python value as stored in a spreadsheet cell: int, float (exact
decimal `m / 10^e`), or string. -/
inductive Value where
  | i (n : ℤ)
  | f (m : ℤ) (e : ℕ)
  | s (t : String)
deriving DecidableEq

/-- Python truthiness of a value: nonzero number or non-empty string. -/
def pyTruthy : Value → Bool
  | .i n => n != 0
  | .f m _ => m != 0
  | .s t => t != ""

/-- Truthiness of an optional value; `None` is falsy. -/
def pyTruthyOpt : Option Value → Bool
  | some v => pyTruthy v
  | none => false

/-- The ASCII apostrophe (the source regexes list it twice). -/
def aposChar : Char := Char.ofNat 39

/-- The backquote character, the third member of the source's
apostrophe-like character class. -/
def backquoteChar : Char := Char.ofNat 96

/-- Membership in the source's apostrophe-like class `[''`+backquote]`. -/
def isApos (c : Char) : Bool := c = aposChar || c = backquoteChar

/-- Python whitespace for `str.strip` and `\s` (ASCII subset: space, tab,
newline, carriage return, vertical tab, form feed). -/
def isPySpace (c : Char) : Bool :=
  c = ' ' || c = Char.ofNat 9 || c = Char.ofNat 10 || c = Char.ofNat 13 ||
  c = Char.ofNat 11 || c = Char.ofNat 12

/-- Python `str.strip()`: drop leading and trailing whitespace. -/
def pyStrip (t : String) : String :=
  String.mk (((t.toList.dropWhile isPySpace).reverse.dropWhile isPySpace).reverse)

/-- Python `str.lower()` on one character (ASCII, plus the accented French
letters this workbook uses). -/
def pyLower (c : Char) : Char :=
  match c with
  | 'À' => 'à' | 'Â' => 'â' | 'Ä' => 'ä' | 'É' => 'é' | 'È' => 'è'
  | 'Ê' => 'ê' | 'Ë' => 'ë' | 'Î' => 'î' | 'Ï' => 'ï' | 'Ô' => 'ô'
  | 'Ö' => 'ö' | 'Ù' => 'ù' | 'Û' => 'û' | 'Ü' => 'ü' | 'Ç' => 'ç'
  | _ => c.toLower

/-- Python `str.lower()` on a whole string. -/
def pyLowerStr (t : String) : String := String.mk (t.toList.map pyLower)

/-- Net effect of `unicodedata.normalize("NFD", ·)` followed by dropping
combining marks, on the precomposed Latin letters occurring in this data:
each maps to its base letter; other characters are untouched. -/
def deAccent (c : Char) : Char :=
  match c with
  | 'à' => 'a' | 'â' => 'a' | 'ä' => 'a' | 'é' => 'e' | 'è' => 'e'
  | 'ê' => 'e' | 'ë' => 'e' | 'î' => 'i' | 'ï' => 'i' | 'ô' => 'o'
  | 'ö' => 'o' | 'ò' => 'o' | 'ù' => 'u' | 'û' => 'u' | 'ü' => 'u'
  | 'ç' => 'c' | 'ÿ' => 'y'
  | _ => c

/-- `10^e` as an integer, via kernel-friendly natural power. -/
def ipow10 (e : ℕ) : ℤ := ((10 ^ e : ℕ) : ℤ)

/-- Decimal digits to a natural number. -/
def digitsToNat (l : List Char) : ℕ :=
  l.foldl (fun a c => 10 * a + (c.toNat - 48)) 0

/-- Python `str(value)`. For non-integral floats the script never relies
on the exact float repr, so a simple decimal rendering is used. -/
def pyStr : Value → String
  | .i n => toString n
  | .f m e =>
      if e = 0 then toString m ++ ".0"
      else toString m ++ "e-" ++ toString e
  | .s t => t

/-- Python `float(value)` as an exact decimal pair: ints and floats are
exact; strings parse as optional sign, digits, optional fraction, else
raise `ValueError` (exponent/`inf`/`nan` literal forms are not used by
this data and are modelled as errors too). -/
def pyFloatPair : Value → Except String (ℤ × ℕ)
  | .i n => .ok (n, 0)
  | .f m e => .ok (m, e)
  | .s t =>
    let l := (pyStrip t).toList
    let sgn : Bool := match l with
      | c :: _ => c = '-'
      | [] => false
    let l1 : List Char := match l with
      | c :: r => if c = '-' || c = '+' then r else l
      | [] => l
    let ip := l1.takeWhile Char.isDigit
    let rest := l1.dropWhile Char.isDigit
    let parsed : Option (ℤ × ℕ) :=
      match rest with
      | [] => if ip.isEmpty then none else some (((digitsToNat ip : ℕ) : ℤ), 0)
      | c :: fr =>
        if c = '.' && fr.all Char.isDigit && (!ip.isEmpty || !fr.isEmpty) then
          some (((digitsToNat ip * 10 ^ fr.length + digitsToNat fr : ℕ) : ℤ), fr.length)
        else none
    match parsed with
    | some (m, e) => .ok (if sgn then (-m, e) else (m, e))
    | none => .error ("ValueError: could not convert string to float: " ++ t)

/-- Python `int(value)`: ints unchanged, floats truncated toward zero,
strings parsed as optional sign plus digits, else `ValueError`. -/
def pyInt : Value → Except String ℤ
  | .i n => .ok n
  | .f m e => .ok (if 0 ≤ m then m / ipow10 e else -((-m) / ipow10 e))
  | .s t =>
    let l := (pyStrip t).toList
    let sgn : Bool := match l with
      | c :: _ => c = '-'
      | [] => false
    let l1 : List Char := match l with
      | c :: r => if c = '-' || c = '+' then r else l
      | [] => l
    if !l1.isEmpty && l1.all Char.isDigit then
      .ok (if sgn then -((digitsToNat l1 : ℕ) : ℤ) else ((digitsToNat l1 : ℕ) : ℤ))
    else .error ("ValueError: invalid literal for int with base 10: " ++ t)

/-- Round-half-to-even of the fraction `m / p` (for `p > 0`), the rounding
Python's `round` applies to the exact value. -/
def rheDiv (m p : ℤ) : ℤ :=
  let q := m / p
  let r := m % p
  if 2 * r < p then q
  else if p < 2 * r then q + 1
  else if q % 2 = 0 then q else q + 1

/-- `round(m / 10^e, d)` expressed as the mantissa at scale `10^d`. -/
def roundToScale (m : ℤ) (e d : ℕ) : ℤ :=
  if e ≤ d then m * ipow10 (d - e) else rheDiv m (ipow10 (e - d))

/-- Core of `clean_number` on a non-`None` value: `f = round(float(val),
decimals)`, returned as `int(f)` when `f == int(f)`, else as the float. -/
def cleanVal (v : Value) (decimals : ℕ) : Except String Value := do
  let (m, e) ← pyFloatPair v
  let md := roundToScale m e decimals
  if md % ipow10 decimals = 0 then
    pure (.i (md / ipow10 decimals))
  else
    pure (.f md decimals)

/-- `clean_number(val, decimals)` from `build.py`: `None` passes through,
otherwise the value is rounded and integer-collapsed; a non-numeric
string raises. -/
def clean_number (val : Option Value) (decimals : ℕ) : Except String (Option Value) :=
  match val with
  | none => .ok none
  | some v => do
      let w ← cleanVal v decimals
      pure (some w)

/-- Rational value of a numeric `Value` (specification-level reading of
the decimal representation; strings read as 0, never used). -/
def qval : Value → ℚ
  | .i n => (n : ℚ)
  | .f m e => (m : ℚ) / (10 : ℚ) ^ e
  | .s _ => 0

/-- State machine for `re.sub(r"\s*-\s*", "-", ·)`.  `some pending` holds
a whitespace run (reversed) whose fate is still unknown; `none` means we
are inside the trailing `\s*` of a match just replaced.  A pending run
followed by a hyphen is the leading `\s*` of a match and is dropped with
the hyphen replaced; followed by anything else, no match can start inside
it (every position in the run leads to the same non-hyphen), so it is
emitted verbatim.  This reproduces `re.sub`'s leftmost, non-overlapping
replacement exactly. -/
def subHyphenGo : Option (List Char) → List Char → List Char
  | some pending, [] => pending.reverse
  | none, [] => []
  | some pending, c :: cs =>
      if isPySpace c then subHyphenGo (some (c :: pending)) cs
      else if c = '-' then '-' :: subHyphenGo none cs
      else pending.reverse ++ (c :: subHyphenGo (some []) cs)
  | none, c :: cs =>
      if isPySpace c then subHyphenGo none cs
      else if c = '-' then '-' :: subHyphenGo none cs
      else c :: subHyphenGo (some []) cs

/-- `re.sub(r"\s*-\s*", "-", ·)` on a character list. -/
def subHyphen (l : List Char) : List Char := subHyphenGo (some []) l

/-- `normalize_ref(ref)` from `build.py`: falsy input gives `""`, else the
string form is stripped and whitespace around hyphens is collapsed. -/
def normalize_ref : Option Value → String
  | none => ""
  | some v =>
    if pyTruthy v then String.mk (subHyphen (pyStrip (pyStr v)).toList) else ""

/-- The single letters whose elided article `re.sub(r"\b[dlnqsj][..]", ...)`
removes. -/
def isElidable (c : Char) : Bool :=
  c = 'd' || c = 'l' || c = 'n' || c = 'q' || c = 's' || c = 'j'

/-- A regex word character (`\b` boundary test); ASCII, which is all the
slug pipeline can still contain at that point. -/
def isWordChar (c : Char) : Bool := c.isAlphanum || c = '_'

/-- `re.sub(r"\b[dlnqsj]['`́`]", "", ·)`: remove an elidable letter at a
word boundary followed by an apostrophe-like character.  `prevW` records
whether the previously scanned character was a word character. -/
def elide : Bool → List Char → List Char
  | _, [] => []
  | _, [c] => [c]
  | prevW, c :: a :: rest =>
    if !prevW && isElidable c && isApos a then
      elide false rest
    else
      c :: elide (isWordChar c) (a :: rest)

/-- State machine for `re.sub(r"<class>+", "-", ·)`: each maximal run of
characters in the class becomes a single hyphen.  `inRun` records whether
the previous character belonged to the current run. -/
def collapseRunsGo (sep : Char → Bool) (inRun : Bool) : List Char → List Char
  | [] => []
  | c :: cs =>
    if sep c then
      if inRun then collapseRunsGo sep true cs
      else '-' :: collapseRunsGo sep true cs
    else c :: collapseRunsGo sep false cs

/-- `re.sub(r"<class>+", "-", ·)` on a character list. -/
def collapseRuns (sep : Char → Bool) (l : List Char) : List Char :=
  collapseRunsGo sep false l

/-- `str.strip("-")`: drop hyphens from both ends. -/
def stripHyphens (l : List Char) : List Char :=
  ((l.dropWhile (· = '-')).reverse.dropWhile (· = '-')).reverse

/-- Characters kept by the `[^a-z0-9-]` deletion step. -/
def isKeep (c : Char) : Bool :=
  (97 ≤ c.toNat && c.toNat ≤ 122) || c.isDigit || c = '-'

/-- The slug pipeline of `normalize_granit_name` on the name part: lower,
strip accents, elide articles, drop apostrophes, hyphenate
whitespace/slashes, drop other non-alphanumerics, collapse and trim
hyphens. -/
def slugifyChars (l : List Char) : List Char :=
  let l1 := (l.map pyLower).map deAccent
  let l2 := elide false l1
  let l3 := l2.filter (fun c => !isApos c)
  let l4 := collapseRuns (fun c => isPySpace c || c = '/' || c = '\\') l3
  let l5 := l4.filter isKeep
  let l6 := collapseRuns (fun c => c = '-') l5
  stripHyphens l6

/-- `normalize_granit_name(code, nom)` from `build.py`: empty name gives
just `str(code)`, else `str(code) ++ "-"` followed by the slug of the
name. -/
def normalize_granit_name (code : Value) (nom : String) : String :=
  if nom = "" then pyStr code
  else pyStr code ++ "-" ++ String.mk (slugifyChars nom.toList)

/-- `extract_product_type(tab_name)` from `build.py`: the segment before
the first dot, with one trailing `s` dropped unless the segment is
exactly `"Poids"`. -/
def extract_product_type (tab_name : String) : String :=
  let base := tab_name.toList.takeWhile (fun c => c != '.')
  if base.getLast? = some 's' && String.mk base != "Poids" then
    String.mk base.dropLast
  else String.mk base

/-! ### Sheets, cells and workbooks

A row is the list of raw cell values `openpyxl` yields; `iter_rows` pads
every row of a sheet to the sheet's maximal column count with `None`-valued
empty cells, which total indexing with a `none` default reproduces. -/

/-- A spreadsheet row: raw cell values, `none` for an empty cell. -/
abbrev Row : Type := List (Option Value)

/-- A sheet: its `sheet_state` and its rows (row 1 is the header row). -/
structure Sheet where
  sheet_state : String := "visible"
  rows : List (List (Option Value))

/-- A workbook: the sheets with their names, in workbook order. -/
structure Workbook where
  sheets : List (String × Sheet)

/-- The workbook's sheet names in order (`wb.sheetnames`). -/
def Workbook.sheetnames (wb : Workbook) : List String := wb.sheets.map Prod.fst

/-- Sheet lookup `wb[name]` as an `Option`. -/
def Workbook.get (wb : Workbook) (name : String) : Option Sheet :=
  (wb.sheets.find? (fun p => p.1 = name)).map Prod.snd

/-- Sheet lookup `wb[name]`; a missing sheet is Python's `KeyError`. -/
def getSheet (wb : Workbook) (name : String) : Except String Sheet :=
  match wb.get name with
  | some ws => .ok ws
  | none => .error ("KeyError: " ++ name)

/-- Raw cell access `row[i]` (`None`-valued empty cell when padded). -/
def cellRaw (row : List (Option Value)) (i : ℕ) : Option Value := row.getD i none

/-- `cell_val(cell)` from `build.py`: `None` stays `None`; strings are
stripped and empty results become `None`; other values pass through. -/
def cell_val (c : Option Value) : Option Value :=
  match c with
  | none => none
  | some (.s t) =>
      let t' := pyStrip t
      if t' = "" then none else some (.s t')
  | some v => some v

/-- `cell_val(row[i])`: the cleaned cell at column `i`. -/
def cellv (row : List (Option Value)) (i : ℕ) : Option Value :=
  cell_val (cellRaw row i)

/-- The rows visited by `ws.iter_rows(min_row=2)`: all but the header. -/
def dataRows (ws : Sheet) : List (List (Option Value)) := ws.rows.tail

/-! ### Shared reader helpers -/

/-- `str(x) if x else ""`: the string form when truthy, else empty. -/
def strOr (o : Option Value) : String :=
  match o with
  | some v => if pyTruthy v then pyStr v else ""
  | none => ""

/-- `int(x) if x else 0`: conversion when truthy (which can raise),
else `0`. -/
def intOr (o : Option Value) : Except String ℤ :=
  match o with
  | some v => if pyTruthy v then pyInt v else .ok 0
  | none => .ok 0

/-- `clean_number(x) if x else 0` (with `x` known non-`None` whenever it
is truthy): rounding when truthy (which can raise), else the int `0`. -/
def cleanOr (o : Option Value) (decimals : ℕ) : Except String Value :=
  match o with
  | some v => if pyTruthy v then cleanVal v decimals else .ok (.i 0)
  | none => .ok (.i 0)

/-- Run a per-row extractor over a list of rows, collecting the emitted
items; a raised exception aborts the whole reader, as in Python. -/
def mapRowsExcept {α : Type} (f : List (Option Value) → Except String (Option α)) :
    List (List (Option Value)) → Except String (List α)
  | [] => .ok []
  | r :: rs => do
      let x ← f r
      let xs ← mapRowsExcept f rs
      match x with
      | some e => pure (e :: xs)
      | none => pure xs

/-- Insert into a Python dict modelled as an ordered association list:
an existing key keeps its position and gets the new value, a new key is
appended. -/
def dictInsert {β : Type} (k : String) (v : β) : List (String × β) → List (String × β)
  | [] => [(k, v)]
  | (k', v') :: rest => if k' = k then (k, v) :: rest else (k', v') :: dictInsert k v rest

/-- Dict lookup: first (unique) binding of the key. -/
def dictFind {β : Type} : List (String × β) → String → Option β
  | [], _ => none
  | (k', v) :: rest, k => if k' = k then some v else dictFind rest k

/-! ### Structural readers -/

/-- One stone-catalog entry produced by `read_granits`. -/
structure GranitEntry where
  code : Value
  nom : String
  origine : String
  photo : Option String := none
deriving DecidableEq

/-- `read_granits(wb)` on one row.  The photo base name comes from
`normalize_granit_name(code, nom)`; the source calls `.lower()` on the
raw name, so only string names reach the slug pipeline in practice (a
numeric name would raise `AttributeError`; it is rendered via `str` here
and never exercised). -/
def read_granits_row (gfp : String → String → Option String) (row : Row) :
    Option GranitEntry :=
  let code := cellv row 0
  let nom := cellv row 1
  let origine := cellv row 2
  match code, nom with
  | some cv, some nv =>
    if pyTruthy nv then
      let photo_base := normalize_granit_name cv (match nv with | .s t => t | v => pyStr v)
      let photo := gfp "granits" photo_base
      some { code := (match cv with | .i n => .i n | .f m e => .i (if 0 ≤ m then m / ipow10 e else -((-m) / ipow10 e)) | .s t => .s t),
             nom := pyStr nv,
             origine := (match origine with
               | some ov => if pyTruthy ov then pyStrip (pyStr ov) else ""
               | none => ""),
             photo := photo }
    else none
  | _, _ => none

/-- `read_granits(wb)`: the stone catalog list. -/
def read_granits (gfp : String → String → Option String) (ws : Sheet) :
    List GranitEntry :=
  (dataRows ws).filterMap (read_granits_row gfp)

/-- `read_poids(wb)` on one row, updating the accumulated dict: requires
a truthy reference and a non-`None` value; a falsy value stores `0`, a
truthy one stores `clean_number(val, 3)` (which can raise). -/
def read_poids_row (acc : List (String × Value)) (row : Row) :
    Except String (List (String × Value)) :=
  match cellv row 1, cellv row 2 with
  | some rv, some vv =>
    if pyTruthy rv then do
      let w ← (if pyTruthy vv then cleanVal vv 3 else .ok (.i 0))
      pure (dictInsert (pyStr rv) w acc)
    else pure acc
  | _, _ => pure acc

/-- Fold `read_poids_row` over the data rows. -/
def read_poids_go (acc : List (String × Value)) :
    List Row → Except String (List (String × Value))
  | [] => .ok acc
  | row :: rest => do
      let acc' ← read_poids_row acc row
      read_poids_go acc' rest

/-- `read_poids(wb)`: reference → weight dict. -/
def read_poids (ws : Sheet) : Except String (List (String × Value)) :=
  read_poids_go [] (dataRows ws)

/-- The department-code string of a cell value: `str(int(dept))` for
numbers, `str(dept)` for strings. -/
def deptStr (v : Value) : String :=
  match v with
  | .i n => toString n
  | .f m e => toString (if 0 ≤ m then m / ipow10 e else -((-m) / ipow10 e))
  | .s t => t

/-- Zero-pad a department string to two digits when it is a single
digit, as both `read_zones_transport` and `read_listes` do. -/
def padDept (s : String) : String :=
  if s.toList.length = 1 && s.toList.all Char.isDigit then "0" ++ s else s

/-- One cell of `read_zones_transport`'s inner column loop: a non-`None`
department cell contributes `dept → "Zone <col+1>"`. -/
def read_zones_cell (row : Row) (acc : List (String × String)) (i : ℕ) :
    List (String × String) :=
  match cellv row i with
  | some d => dictInsert (padDept (deptStr d)) ("Zone " ++ toString (i + 1)) acc
  | none => acc

/-- `read_zones_transport(wb)` on one row: columns A–F contribute an
entry `dept → "Zone <col+1>"` for every non-`None` cell. -/
def read_zones_row (acc : List (String × String)) (row : Row) : List (String × String) :=
  (List.range 6).foldl (read_zones_cell row) acc

/-- `read_zones_transport(wb)`: department → zone dict (later rows can
overwrite earlier entries). -/
def read_zones_transport (ws : Sheet) : List (String × String) :=
  (dataRows ws).foldl read_zones_row []

/-- One transport-tariff entry produced by `read_tarifs_transport`. -/
structure TarifEntry where
  zone : String
  t0_3 : ℤ
  t3_5 : ℤ
  t5_8 : ℤ
  t8_10 : ℤ
  t10_15 : ℤ
  minimum : ℤ
deriving DecidableEq

/-- `read_tarifs_transport(wb)` on one row: the row qualifies when its
first (cleaned) cell is truthy and its string form starts with `"Zone"`;
the six prices use the raw cell values, `int(x) if x else 0`. -/
def read_tarifs_row (row : Row) : Except String (Option TarifEntry) :=
  match cellv row 0 with
  | some zv =>
    if pyTruthy zv && "Zone".toList.isPrefixOf (pyStr zv).toList then do
      let a ← intOr (cellRaw row 1)
      let b ← intOr (cellRaw row 2)
      let c ← intOr (cellRaw row 3)
      let d ← intOr (cellRaw row 4)
      let e ← intOr (cellRaw row 5)
      let f ← intOr (cellRaw row 6)
      pure (some { zone := pyStr zv, t0_3 := a, t3_5 := b, t5_8 := c,
                   t8_10 := d, t10_15 := e, minimum := f })
    else pure none
  | none => pure none

/-- `read_tarifs_transport(wb)`: the transport tariff list. -/
def read_tarifs_transport (ws : Sheet) : Except String (List TarifEntry) :=
  mapRowsExcept read_tarifs_row (dataRows ws)

/-- One department/zone pair of the `LISTES` sheet. -/
structure DeptEntry where
  departement : String
  zone : String
deriving DecidableEq

/-- Accumulator of `read_listes`: the four projections built per row. -/
structure ListsAcc where
  types : List String
  lignes_monument : List String
  lignes_accessoire : List String
  departements : List DeptEntry
deriving DecidableEq

/-- The `if typ:` block of `read_listes`: set-insert the type label. -/
def listes_typ_upd (acc : ListsAcc) (typ : Option Value) : ListsAcc :=
  match typ with
  | some tv =>
    if pyTruthy tv then
      if acc.types.contains (pyStr tv) then acc
      else { acc with types := acc.types ++ [pyStr tv] }
    else acc
  | none => acc

/-- The `if lm ...` block of `read_listes`: first-seen-append the
monument line label. -/
def listes_lm_upd (acc : ListsAcc) (lm : Option Value) : ListsAcc :=
  match lm with
  | some lv =>
    if pyTruthy lv && !acc.lignes_monument.contains (pyStr lv) then
      { acc with lignes_monument := acc.lignes_monument ++ [pyStr lv] }
    else acc
  | none => acc

/-- The `if la ...` block of `read_listes`: first-seen-append the
accessory line label. -/
def listes_la_upd (acc : ListsAcc) (la : Option Value) : ListsAcc :=
  match la with
  | some lv =>
    if pyTruthy lv && !acc.lignes_accessoire.contains (pyStr lv) then
      { acc with lignes_accessoire := acc.lignes_accessoire ++ [pyStr lv] }
    else acc
  | none => acc

/-- The `if dept is not None and zone:` block of `read_listes`:
first-seen-keep the department/zone pair, department zero-padded. -/
def listes_dept_upd (acc : ListsAcc) (dept zone : Option Value) : ListsAcc :=
  match dept, zone with
  | some dv, some zv =>
    if pyTruthy zv then
      let dept_str := padDept (deptStr dv)
      if acc.departements.any (fun d => d.departement = dept_str) then acc
      else { acc with departements :=
        acc.departements ++ [{ departement := dept_str, zone := pyStr zv }] }
    else acc
  | _, _ => acc

/-- `read_listes(wb)` on one row: the four blocks in source order. -/
def read_listes_row (acc : ListsAcc) (row : Row) : ListsAcc :=
  listes_dept_upd
    (listes_la_upd
      (listes_lm_upd
        (listes_typ_upd acc (cellv row 2))
        (cellv row 3))
      (cellv row 4))
    (cellv row 0) (cellv row 1)

/-- The canonical ordering of product types. -/
def type_order : List String :=
  ["Monument", "Semelle", "Accessoire", "Urne", "Gravure", "Litho"]

/-- Insert into a lexicographically sorted list of strings. -/
def insertSorted (x : String) : List String → List String
  | [] => [x]
  | y :: ys => if x ≤ y then x :: y :: ys else y :: insertSorted x ys

/-- Sort strings as Python `sorted` does (lexicographic by code point);
insertion sort, which agrees with `sorted` on the duplicate-free lists it
is applied to. -/
def sortStrings : List String → List String
  | [] => []
  | x :: xs => insertSorted x (sortStrings xs)

/-- `read_listes(wb)`: `(types, lignes_monument, lignes_accessoire,
departements)`.  The observed types (a Python set: deduplicated) are laid
out canonical-first, then the remaining observed types sorted. -/
def read_listes (ws : Sheet) :
    List String × List String × List String × List DeptEntry :=
  let acc := (dataRows ws).foldl read_listes_row ⟨[], [], [], []⟩
  let types_list := type_order.filter (fun t => acc.types.contains t)
  let extras := (sortStrings acc.types).filter (fun t => !types_list.contains t)
  (types_list ++ extras, acc.lignes_monument, acc.lignes_accessoire, acc.departements)

/-! ### Tab classifier -/

/-- The fixed structural tabs. -/
def FIXED_TABS : List String :=
  ["GRANITS", "Poids", "Tarif TFranco", "Zone.TFranco", "LISTES"]

/-- The explicitly ignored tabs. -/
def IGNORED_TABS : List String :=
  ["Mode opératoire", "CALCUL PRIX ACHAT €", "CALCUL PRIX FAMILLE €",
   "(Semelles.Monument.€HT)"]

/-- `re.match(r".+\.PrixAdh\.€HT$", name)`: the name (one trailing
newline tolerated by `$`) splits as a non-empty, newline-free prefix
followed by the literal suffix `".PrixAdh.€HT"`. -/
def matchesProductPattern (name : String) : Bool :=
  let l0 := name.toList
  let l := if l0.getLast? = some (Char.ofNat 10) then l0.dropLast else l0
  let sfx := ".PrixAdh.€HT".toList
  sfx.isSuffixOf l && decide (sfx.length < l.length) &&
    (l.take (l.length - sfx.length)).all (fun c => c != Char.ofNat 10)

/-- `detect_product_tabs(wb)`: visible, non-parenthesised sheets matching
the product pattern, skipping fixed and ignored tabs, in workbook
order. -/
def detect_product_tabs (wb : Workbook) : List String :=
  wb.sheetnames.filter (fun name =>
    !IGNORED_TABS.contains name &&
    !FIXED_TABS.contains name &&
    matchesProductPattern name &&
    !(name.toList.head? = some '(' && name.toList.getLast? = some ')') &&
    (match wb.get name with
     | some ws => ws.sheet_state = "visible"
     | none => false))

/-! ### Product readers -/

/-- One monument row's output entry. -/
structure MonEntry where
  ligne : String
  reference : String
  origine : String
  code_granit : ℤ
  granit : String
  prix_ht : Option Value
  avec_semelle_130x230 : Option Value
  avec_semelle_140x240 : Option Value
  avec_semelle_150x250 : Option Value
  photo : Option String := none
deriving DecidableEq

/-- `read_monuments` on one row: emit iff the reference is truthy and
the price cell non-`None`. -/
def read_monuments_row (gfp : String → String → Option String) (row : Row) :
    Except String (Option MonEntry) :=
  let ligne := cellv row 0
  let origine := cellv row 2
  let code_g := cellv row 3
  let granit := cellv row 4
  let prix := cellv row 5
  let sem130 := cellv row 6
  let sem140 := cellv row 7
  let sem150 := cellv row 8
  match cellv row 1 with
  | some rv =>
    if pyTruthy rv && (prix.isSome : Bool) then do
      let cg ← intOr code_g
      let ph ← cleanOr prix 2
      let s130 ← clean_number sem130 2
      let s140 ← clean_number sem140 2
      let s150 ← clean_number sem150 2
      pure (some { ligne := strOr ligne, reference := pyStr rv,
                   origine := strOr origine, code_granit := cg,
                   granit := strOr granit, prix_ht := some ph,
                   avec_semelle_130x230 := s130, avec_semelle_140x240 := s140,
                   avec_semelle_150x250 := s150,
                   photo := gfp "monuments" (normalize_ref (some rv)) })
    else pure none
  | none => pure none

/-- `read_monuments(wb, tab_name)`. -/
def read_monuments (gfp : String → String → Option String) (ws : Sheet) :
    Except String (List MonEntry) :=
  mapRowsExcept (read_monuments_row gfp) (dataRows ws)

/-- One base-support (semelle) row's output entry. -/
structure SemEntry where
  reference : String
  origine : String
  code_granit : ℤ
  granit : String
  prix_ht : Option Value
deriving DecidableEq

/-- `read_semelles` on one row: emit iff the reference is truthy and the
price cell non-`None`. -/
def read_semelles_row (row : Row) : Except String (Option SemEntry) :=
  let origine := cellv row 2
  let code_g := cellv row 3
  let granit := cellv row 4
  let prix := cellv row 5
  match cellv row 1 with
  | some rv =>
    if pyTruthy rv && (prix.isSome : Bool) then do
      let cg ← intOr code_g
      let ph ← cleanOr prix 2
      pure (some { reference := pyStr rv, origine := strOr origine,
                   code_granit := cg, granit := strOr granit,
                   prix_ht := some ph })
    else pure none
  | none => pure none

/-- `read_semelles(wb, tab_name)`. -/
def read_semelles (ws : Sheet) : Except String (List SemEntry) :=
  mapRowsExcept read_semelles_row (dataRows ws)

/-- One accessory row's output entry. -/
structure AccEntry where
  type : String
  reference : String
  origine : String
  code_granit : ℤ
  granit : String
  prix_ht : Option Value
  photo : Option String := none
deriving DecidableEq

/-- `read_accessoires` on one row: emit iff the reference is truthy and
the price cell non-`None`. -/
def read_accessoires_row (gfp : String → String → Option String) (row : Row) :
    Except String (Option AccEntry) :=
  let typ := cellv row 1
  let origine := cellv row 3
  let code_g := cellv row 4
  let granit := cellv row 5
  let prix := cellv row 6
  match cellv row 2 with
  | some rv =>
    if pyTruthy rv && (prix.isSome : Bool) then do
      let cg ← intOr code_g
      let ph ← cleanOr prix 2
      pure (some { type := strOr typ, reference := pyStr rv,
                   origine := strOr origine, code_granit := cg,
                   granit := strOr granit, prix_ht := some ph,
                   photo := gfp "accessoires" (normalize_ref (some rv)) })
    else pure none
  | none => pure none

/-- `read_accessoires(wb, tab_name)`. -/
def read_accessoires (gfp : String → String → Option String) (ws : Sheet) :
    Except String (List AccEntry) :=
  mapRowsExcept (read_accessoires_row gfp) (dataRows ws)

/-- One engraving row's output entry. -/
structure GravEntry where
  reference : String
  prix_caractere_ht : Option Value
deriving DecidableEq

/-- `read_gravures` on one row: emit iff the reference is truthy and the
per-character price cell non-`None`. -/
def read_gravures_row (row : Row) : Except String (Option GravEntry) :=
  let prix := cellv row 2
  match cellv row 1 with
  | some rv =>
    if pyTruthy rv && (prix.isSome : Bool) then do
      let ph ← cleanOr prix 2
      pure (some { reference := pyStr rv, prix_caractere_ht := some ph })
    else pure none
  | none => pure none

/-- `read_gravures(wb, tab_name)`. -/
def read_gravures (ws : Sheet) : Except String (List GravEntry) :=
  mapRowsExcept read_gravures_row (dataRows ws)

/-- One generic-reader output entry: a dict with whichever keys the
header matching set (`none` = key absent). -/
structure GenEntry where
  reference : Option String := none
  type : Option String := none
  ligne : Option String := none
  origine : Option String := none
  code_granit : Option ℤ := none
  granit : Option String := none
  prix_caractere_ht : Option Value := none
  prix_ht : Option Value := none
  photo : Option String := none
deriving DecidableEq

/-- Substring containment, Python's `in` on strings. -/
def hasSub (p t : String) : Bool :=
  t.toList.tails.any (fun s => p.toList.isPrefixOf s)

/-- The generic reader's header normalisation:
`str(h).lower().strip() if h else ""`. -/
def headerStr (c : Option Value) : String :=
  match cell_val c with
  | some v => if pyTruthy v then pyStrip (String.mk ((pyStr v).toList.map pyLower)) else ""
  | none => ""

/-- One header/value match of the generic reader's `elif` chain, updating
the entry dict. -/
def genApply (e : GenEntry) (h : String) (v : Value) : Except String GenEntry :=
  if hasSub "référence" h || hasSub "reference" h then
    pure { e with reference := some (pyStr v) }
  else if hasSub "type" h then pure { e with type := some (pyStr v) }
  else if hasSub "ligne" h then pure { e with ligne := some (pyStr v) }
  else if h = "i/c" || h = "origine" then pure { e with origine := some (pyStr v) }
  else if hasSub "code" h && hasSub "granit" h then do
    let n ← (if pyTruthy v then pyInt v else pure 0)
    pure { e with code_granit := some n }
  else if hasSub "code" h then do
    let n ← (if pyTruthy v then pyInt v else pure 0)
    pure { e with code_granit := some n }
  else if hasSub "granit" h then pure { e with granit := some (pyStr v) }
  else if hasSub "caractère" h || hasSub "caractere" h then do
    let w ← (if pyTruthy v then cleanVal v 2 else pure (.i 0))
    pure { e with prix_caractere_ht := some w }
  else if hasSub "prix" h then do
    let w ← (if pyTruthy v then cleanVal v 2 else pure (.i 0))
    pure { e with prix_ht := some w }
  else pure e

/-- The generic reader's per-row header loop: `for i, h in
enumerate(headers)`, breaking past the row's width, skipping `None`
cells. -/
def genRowGo (vals : List (Option Value)) :
    List (ℕ × String) → GenEntry → Except String GenEntry
  | [], e => pure e
  | (i, h) :: rest, e =>
    if vals.length ≤ i then pure e
    else match vals.getD i none with
      | none => genRowGo vals rest e
      | some v => do
          let e' ← genApply e h v
          genRowGo vals rest e'

/-- `read_generic_product` on one row: fully empty rows are skipped; an
entry is emitted whenever at least one field matched; a photo is looked
up only when a reference was found. -/
def read_generic_row (fp : String → Option String) (headers : List String)
    (row : Row) : Except String (Option GenEntry) :=
  let vals := row.map cell_val
  if vals.all (fun v => v.isNone) then pure none
  else do
    let e ← genRowGo vals headers.enum {}
    if e = ({} : GenEntry) then pure none
    else
      let ref := e.reference.getD ""
      if ref != "" then
        pure (some { e with photo := fp (normalize_ref (some (.s ref))) })
      else pure (some e)

/-- `read_generic_product(wb, tab_name, product_type)`: headers from row
1, photo directory `product_type.lower() + "s"` (both branches of the
source's `if` append `"s"`). -/
def read_generic_product (gfp : String → String → Option String) (ws : Sheet)
    (product_type : String) : Except String (List GenEntry) :=
  let headers := (ws.rows.headD []).map headerStr
  let photos_subdir := pyLowerStr product_type ++ "s"
  mapRowsExcept (read_generic_row (gfp photos_subdir) headers) (dataRows ws)

/-! ### Assembler -/

/-- A value bound to a top-level key of the output document. -/
inductive DVal where
  | granits (l : List GranitEntry)
  | mons (l : List MonEntry)
  | sems (l : List SemEntry)
  | accs (l : List AccEntry)
  | gravs (l : List GravEntry)
  | gens (l : List GenEntry)
  | emptyL
  | poids (l : List (String × Value))
  | zones (l : List (String × String))
  | tarifs (l : List TarifEntry)
  | deps (l : List DeptEntry)
  | strs (l : List String)
deriving DecidableEq

/-- Whether a document value is a (JSON) list; `emptyL` is the literal
`[]` the assembler fills in for absent product keys. -/
def DVal.isList : DVal → Bool
  | .poids _ => false
  | .zones _ => false
  | _ => true

/-- Whether a document value is an empty (JSON) list: either the literal
`[]` the assembler fills in, or a reader's empty output list. -/
def DVal.isEmptyList : DVal → Bool
  | .emptyL => true
  | .granits l => l.isEmpty
  | .mons l => l.isEmpty
  | .sems l => l.isEmpty
  | .accs l => l.isEmpty
  | .gravs l => l.isEmpty
  | .gens l => l.isEmpty
  | .tarifs l => l.isEmpty
  | .deps l => l.isEmpty
  | .strs l => l.isEmpty
  | .poids _ => false
  | .zones _ => false

/-- One product tab's contribution to the document: dispatch on the
extracted type, falling back to the generic reader with the pluralized
lowercase key. -/
def read_product_tab (gfp : String → String → Option String) (wb : Workbook)
    (tab_name : String) : Except String (String × DVal) := do
  let ws ← getSheet wb tab_name
  let product_type := extract_product_type tab_name
  if product_type = "Monument" then do
    let items ← read_monuments gfp ws
    pure ("monuments", .mons items)
  else if product_type = "Semelle" then do
    let items ← read_semelles ws
    pure ("semelles", .sems items)
  else if product_type = "Accessoire" then do
    let items ← read_accessoires gfp ws
    pure ("accessoires", .accs items)
  else if product_type = "Gravure" then do
    let items ← read_gravures ws
    pure ("gravures", .gravs items)
  else do
    let items ← read_generic_product gfp ws product_type
    pure (pyLowerStr product_type ++ "s", .gens items)

/-- The six always-expected product keys. -/
def expected_keys : List String :=
  ["monuments", "semelles", "accessoires", "gravures", "lithos", "urnes"]

/-- `build_data()`'s document construction: structural readers, product
tabs in detection order, default `[]` for absent expected keys, then the
structural datasets under fixed keys.  (Console output, the JSON write
and the photo-directory side effects are outside the document and not
modelled.) -/
def build_data (gfp : String → String → Option String) (wb : Workbook) :
    Except String (List (String × DVal)) := do
  let gws ← getSheet wb "GRANITS"
  let granits := read_granits gfp gws
  let pws ← getSheet wb "Poids"
  let poids ← read_poids pws
  let zws ← getSheet wb "Zone.TFranco"
  let zones_transport := read_zones_transport zws
  let tws ← getSheet wb "Tarif TFranco"
  let tarifs_transport ← read_tarifs_transport tws
  let lws ← getSheet wb "LISTES"
  let listes := read_listes lws
  let product_tabs := detect_product_tabs wb
  let data : List (String × DVal) := [("granits", .granits granits)]
  let data ← product_tabs.foldlM (fun d tab => do
      let kv ← read_product_tab gfp wb tab
      pure (dictInsert kv.1 kv.2 d)) data
  let data := expected_keys.foldl (fun d k =>
      if (dictFind d k).isSome then d else d ++ [(k, DVal.emptyL)]) data
  let data := dictInsert "poids" (.poids poids) data
  let data := dictInsert "zones_transport" (.zones zones_transport) data
  let data := dictInsert "tarifs_transport" (.tarifs tarifs_transport) data
  let data := dictInsert "departements" (.deps listes.2.2.2) data
  let data := dictInsert "types" (.strs listes.1) data
  let data := dictInsert "lignes_monument" (.strs listes.2.1) data
  let data := dictInsert "lignes_accessoire" (.strs listes.2.2.1) data
  pure data

end Build

deriving instance DecidableEq for Except

namespace Build

/-! ### Shared lemmas -/

/-- Every item collected by `mapRowsExcept` comes from a row on which the
per-row extractor succeeded with that item. -/
lemma mapRowsExcept_mem {α : Type} (f : Row → Except String (Option α)) :
    ∀ rows items, mapRowsExcept f rows = .ok items → ∀ e ∈ items,
      ∃ row ∈ rows, f row = .ok (some e) := by
  intro rows
  induction rows with
  | nil =>
    intro items h e he
    simp only [mapRowsExcept] at h
    cases h
    simp at he
  | cons r rs ih =>
    intro items h e he
    simp only [mapRowsExcept] at h
    cases hf : f r with
    | error msg => rw [hf] at h; simp [bind, Except.instMonad, Except.bind] at h
    | ok x =>
      rw [hf] at h
      cases hrec : mapRowsExcept f rs with
      | error msg => rw [hrec] at h; simp [bind, Except.instMonad, Except.bind] at h
      | ok xs =>
        rw [hrec] at h
        cases x with
        | none =>
          simp only [bind, Except.instMonad, Except.bind, pure, Except.pure,
            Except.ok.injEq] at h
          subst h
          obtain ⟨row, hrow, hfr⟩ := ih xs hrec e he
          exact ⟨row, List.mem_cons_of_mem _ hrow, hfr⟩
        | some e0 =>
          simp only [bind, Except.instMonad, Except.bind, pure, Except.pure,
            Except.ok.injEq] at h
          subst h
          rcases List.mem_cons.mp he with he0 | hmem
          · subst he0; exact ⟨r, List.mem_cons_self _ _, hf⟩
          · obtain ⟨row, hrow, hfr⟩ := ih xs hrec e hmem
            exact ⟨row, List.mem_cons_of_mem _ hrow, hfr⟩

/-- Membership after a dict insert: the new binding or an old one. -/
lemma mem_dictInsert {β : Type} (k : String) (v : β) :
    ∀ l p, p ∈ dictInsert k v l → p = (k, v) ∨ p ∈ l := by
  intro l
  induction l with
  | nil => intro p hp; simpa [dictInsert] using hp
  | cons q rest ih =>
    intro p hp
    by_cases hk : q.1 = k
    · simp only [dictInsert, if_pos hk] at hp
      rcases List.mem_cons.mp hp with h | h
      · exact Or.inl h
      · exact Or.inr (List.mem_cons_of_mem _ h)
    · simp only [dictInsert, if_neg hk] at hp
      rcases List.mem_cons.mp hp with h | h
      · exact Or.inr (h ▸ List.mem_cons_self _ _)
      · rcases ih p h with h' | h'
        · exact Or.inl h'
        · exact Or.inr (List.mem_cons_of_mem _ h')

/-- The inserted binding is present after a dict insert. -/
lemma self_mem_dictInsert {β : Type} (k : String) (v : β) :
    ∀ l, (k, v) ∈ dictInsert k v l := by
  intro l
  induction l with
  | nil => simp [dictInsert]
  | cons q rest ih =>
    by_cases hk : q.1 = k
    · simp [dictInsert, if_pos hk]
    · simp only [dictInsert, if_neg hk]
      exact List.mem_cons_of_mem _ ih

/-- A key bound before a dict insert is still bound after it. -/
lemma key_mem_dictInsert_of_mem {β : Type} (k : String) (v : β) :
    ∀ l k0 w0, (k0, w0) ∈ l → ∃ w, (k0, w) ∈ dictInsert k v l := by
  intro l
  induction l with
  | nil => intro k0 w0 h; simp at h
  | cons q rest ih =>
    intro k0 w0 h
    by_cases hk : q.1 = k
    · simp only [dictInsert, if_pos hk]
      rcases List.mem_cons.mp h with h' | h'
      · have hkk : k0 = k := by rw [← hk, ← h']
        exact ⟨v, hkk ▸ List.mem_cons_self _ _⟩
      · exact ⟨w0, List.mem_cons_of_mem _ h'⟩
    · simp only [dictInsert, if_neg hk]
      rcases List.mem_cons.mp h with h' | h'
      · exact ⟨w0, h' ▸ List.mem_cons_self _ _⟩
      · obtain ⟨w, hw⟩ := ih k0 w0 h'
        exact ⟨w, List.mem_cons_of_mem _ hw⟩

/-- `10^d` is a nonzero integer. -/
lemma ipow10_ne_zero (d : ℕ) : ipow10 d ≠ 0 := by
  simp only [ipow10, ne_eq, Int.natCast_eq_zero]
  exact pow_ne_zero d (by norm_num)

/-- Casting `10^d` to the rationals. -/
lemma ipow10_cast_q (d : ℕ) : ((ipow10 d : ℤ) : ℚ) = (10 : ℚ) ^ d := by
  simp only [ipow10]
  push_cast
  ring

/-- `clean_number` fixes Python ints. -/
lemma clean_number_int (k : ℤ) (d : ℕ) :
    clean_number (some (.i k)) d = .ok (some (.i k)) := by
  have hp : ipow10 d ≠ 0 := ipow10_ne_zero d
  have hdvd : ipow10 d ∣ k * ipow10 d := dvd_mul_left _ _
  simp only [clean_number, cleanVal, pyFloatPair, bind, Except.instMonad, Except.bind,
    pure, Except.pure, roundToScale, Nat.zero_le, if_true, Nat.sub_zero]
  rw [if_pos (Int.emod_eq_zero_of_dvd hdvd), Int.mul_ediv_cancel _ hp]

/-- `clean_number` fixes a float already rounded at the requested scale
whose mantissa does not collapse. -/
lemma clean_number_f_fix (m : ℤ) (d : ℕ) (h : m % ipow10 d ≠ 0) :
    clean_number (some (.f m d)) d = .ok (some (.f m d)) := by
  simp only [clean_number, cleanVal, pyFloatPair, bind, Except.instMonad, Except.bind,
    pure, Except.pure, roundToScale, le_refl, if_true, Nat.sub_self]
  rw [show ipow10 0 = 1 from rfl, mul_one, if_neg h]

/-! ### C4: `normalize_ref` -/

/-- With no hyphen anywhere, the substitution machine emits everything
verbatim. -/
lemma subHyphenGo_no_hyphen :
    ∀ (l pending : List Char), (∀ c ∈ l, c ≠ '-') →
      subHyphenGo (some pending) l = pending.reverse ++ l := by
  intro l
  induction l with
  | nil => intro pending _; simp [subHyphenGo]
  | cons c cs ih =>
    intro pending hn
    have hc : c ≠ '-' := hn c (List.mem_cons_self _ _)
    have hrest : ∀ a ∈ cs, a ≠ '-' := fun a ha => hn a (List.mem_cons_of_mem _ ha)
    by_cases hws : isPySpace c = true
    · simp only [subHyphenGo, hws, if_true]
      rw [ih (c :: pending) hrest]
      simp
    · simp only [subHyphenGo]
      rw [if_neg hws, if_neg hc, ih [] hrest]
      simp

/-- C4 counterexample: the claim predicts that whitespace not adjacent
to a hyphen is left untouched, so `normalizeReference(" A")` would be
`" A"`; the code strips it to `"A"`. -/
theorem c4_counterexample :
    normalize_ref (some (.s " A")) = "A" ∧ ("A" : String) ≠ " A" := by
  constructor
  · decide
  · decide

/-- C4 (amended): `normalize_ref` yields `""` on null or empty input,
collapses whitespace around hyphens (`"PHGA - CL - A"` →
`"PHGA-CL-A"`), and on hyphen-free strings only strips leading and
trailing whitespace, leaving interior whitespace untouched. -/
theorem c4_normalize_ref :
    normalize_ref none = "" ∧ normalize_ref (some (.s "")) = "" ∧
    normalize_ref (some (.s "PHGA - CL - A")) = "PHGA-CL-A" ∧
    (∀ s : String, (∀ c ∈ s.toList, c ≠ '-') →
      normalize_ref (some (.s s)) = pyStrip s) := by
  refine ⟨rfl, by decide, by decide, ?_⟩
  intro s hs
  by_cases h0 : s = ""
  · subst h0; decide
  · have ht : pyTruthy (.s s) = true := by
      simp only [pyTruthy]
      exact bne_iff_ne.mpr h0
    have hsub : ∀ c ∈ (pyStrip s).toList, c ≠ '-' := by
      intro c hc
      apply hs
      have h1 : c ∈ ((s.toList.dropWhile isPySpace).reverse.dropWhile isPySpace).reverse := hc
      have h2 := List.mem_reverse.mp h1
      have h3 := (List.dropWhile_sublist isPySpace).subset h2
      have h4 := List.mem_reverse.mp h3
      exact (List.dropWhile_sublist isPySpace).subset h4
    show normalize_ref (some (.s s)) = pyStrip s
    simp only [normalize_ref, ht, if_true]
    show String.mk (subHyphen (pyStrip s).toList) = pyStrip s
    rw [subHyphen, subHyphenGo_no_hyphen _ _ hsub]
    rfl

/-- C4 witness: the hyphen-free clause applied to `" a b "`. -/
theorem c4_witness :
    (∀ c ∈ (" a b " : String).toList, c ≠ '-') ∧
      normalize_ref (some (.s " a b ")) = pyStrip " a b " :=
  ⟨by decide, c4_normalize_ref.2.2.2 " a b " (by decide)⟩

/-! ### C5: `normalize_granit_name` -/

/-- C5: the slug of `(31, "Feuille d'automne chinois")` is
`"31-feuille-automne-chinois"`, and an empty name yields just the code's
string form, for every code value. -/
theorem c5_slugify_stone_name :
    normalize_granit_name (.i 31) "Feuille d'automne chinois" =
      "31-feuille-automne-chinois" ∧
    ∀ code : Value, normalize_granit_name code "" = pyStr code := by
  refine ⟨by decide, fun code => ?_⟩
  simp [normalize_granit_name]

/-! ### C6 and C7: `clean_number` -/

/-- C6: `clean_number` passes `None` through, rounds its input to the
requested number of decimals, and collapses to the int constructor
exactly when the rounded value is integral; in particular
`clean_number(12.3456, 2) = 12.35` and `clean_number(12.00, 2) = 12`
as an int. -/
theorem c6_normalize_number :
    (∀ d : ℕ, clean_number none d = .ok none) ∧
    clean_number (some (.f 123456 4)) 2 = .ok (some (.f 1235 2)) ∧
    qval (.f 123456 4) = (12.3456 : ℚ) ∧
    qval (.f 1235 2) = (12.35 : ℚ) ∧
    clean_number (some (.f 1200 2)) 2 = .ok (some (.i 12)) ∧
    (∀ (m : ℤ) (e d : ℕ) (w : Value), cleanVal (.f m e) d = .ok w →
      qval w * (10 : ℚ) ^ d = (roundToScale m e d : ℚ) ∧
      ((∃ n, w = .i n) ↔ ipow10 d ∣ roundToScale m e d)) := by
  refine ⟨fun d => rfl, by decide, by norm_num [qval], by norm_num [qval], by decide, ?_⟩
  intro m e d w h
  have hp : ipow10 d ≠ 0 := ipow10_ne_zero d
  simp only [cleanVal, pyFloatPair, bind, Except.instMonad, Except.bind, pure,
    Except.pure] at h
  by_cases h0 : roundToScale m e d % ipow10 d = 0
  · rw [if_pos h0] at h
    have hw : w = .i (roundToScale m e d / ipow10 d) :=
      (Except.ok.inj h).symm
    subst hw
    have hdvd : ipow10 d ∣ roundToScale m e d := Int.dvd_of_emod_eq_zero h0
    obtain ⟨c, hc⟩ := hdvd
    constructor
    · rw [hc, Int.mul_ediv_cancel_left _ hp]
      show ((c : ℤ) : ℚ) * (10 : ℚ) ^ d = ((ipow10 d * c : ℤ) : ℚ)
      push_cast [ipow10_cast_q]
      ring
    · exact ⟨fun _ => Int.dvd_of_emod_eq_zero h0, fun _ => ⟨_, rfl⟩⟩
  · rw [if_neg h0] at h
    have hw : w = .f (roundToScale m e d) d := (Except.ok.inj h).symm
    subst hw
    constructor
    · show (roundToScale m e d : ℚ) / (10 : ℚ) ^ d * (10 : ℚ) ^ d = _
      rw [div_mul_cancel₀]
      positivity
    · constructor
      · rintro ⟨n, hn⟩; cases hn
      · intro hdvd
        exact absurd (Int.emod_eq_zero_of_dvd hdvd) h0

/-- C6 witness: the rounding/collapse clause applied to the int-valued
float `5.0` at two decimals. -/
theorem c6_witness :
    cleanVal (.f 5 0) 2 = .ok (.i 5) ∧
      (qval (.i 5) * (10 : ℚ) ^ 2 = (roundToScale 5 0 2 : ℚ) ∧
        ((∃ n, Value.i 5 = .i n) ↔ ipow10 2 ∣ roundToScale 5 0 2)) :=
  ⟨by decide, c6_normalize_number.2.2.2.2.2 5 0 2 (.i 5) (by decide)⟩

/-- C7: `clean_number` is idempotent at every decimal count, on every
input (`None`, numeric, or string; a raising input raises identically on
both sides). -/
theorem c7_normalize_number_idempotent :
    ∀ (x : Option Value) (d : ℕ),
      (clean_number x d).bind (fun y => clean_number y d) = clean_number x d := by
  intro x d
  cases x with
  | none => rfl
  | some v =>
    have hp : ipow10 d ≠ 0 := ipow10_ne_zero d
    cases hf : pyFloatPair v with
    | error msg =>
      simp [clean_number, cleanVal, hf, bind, Except.instMonad, Except.bind]
    | ok me =>
      obtain ⟨m, e⟩ := me
      simp only [clean_number, cleanVal, hf, bind, Except.instMonad, Except.bind,
        pure, Except.pure]
      by_cases h0 : roundToScale m e d % ipow10 d = 0
      · rw [if_pos h0]
        show (clean_number (some (.i _)) d) = _
        rw [clean_number_int]
      · rw [if_neg h0]
        show (clean_number (some (.f _ d)) d) = _
        rw [clean_number_f_fix _ _ h0]

/-! ### C8: `extract_product_type` -/

/-- `takeWhile` runs through a block of satisfying characters and stops
at the first failing one. -/
lemma takeWhile_append_cons {α : Type} (p : α → Bool) :
    ∀ (l1 : List α) (c : α) (l2 : List α), (∀ a ∈ l1, p a = true) →
      p c = false → (l1 ++ c :: l2).takeWhile p = l1 := by
  intro l1
  induction l1 with
  | nil => intro c l2 _ hc; simp [List.takeWhile, hc]
  | cons a as ih =>
    intro c l2 hall hc
    have ha : p a = true := hall a (List.mem_cons_self _ _)
    simp only [List.cons_append, List.takeWhile, ha, List.append_eq]
    rw [ih c l2 (fun b hb => hall b (List.mem_cons_of_mem _ hb)) hc]

/-- C8: `extract_product_type` takes the segment before the first dot
and strips one trailing `s` unless the segment is exactly `"Poids"`; the
three specification examples hold. -/
theorem c8_extract_product_type :
    extract_product_type "Monument.PrixAdh.€HT" = "Monument" ∧
    extract_product_type "Accessoires.PrixAdh.€HT" = "Accessoire" ∧
    extract_product_type "Poids.PrixAdh.€HT" = "Poids" ∧
    (∀ pre post : String, (∀ c ∈ pre.toList, c ≠ '.') →
      extract_product_type (pre ++ "." ++ post) =
        if pre.toList.getLast? = some 's' && pre != "Poids" then
          String.mk pre.toList.dropLast
        else pre) := by
  refine ⟨by decide, by decide, by decide, ?_⟩
  intro pre post hpre
  have hmk : String.mk pre.toList = pre := rfl
  have hlist : (pre ++ "." ++ post).toList = pre.toList ++ '.' :: post.toList := by
    show (pre ++ "." ++ post).data = pre.data ++ '.' :: post.data
    simp [String.data_append]
  simp only [extract_product_type, hlist]
  rw [takeWhile_append_cons _ pre.toList '.' post.toList
    (fun a ha => bne_iff_ne.mpr (hpre a ha)) (by decide), hmk]

/-- C8 witness: the general clause applied to the tab name
`"Urnes" ++ "." ++ "PrixAdh.€HT"`. -/
theorem c8_witness :
    extract_product_type ("Urnes" ++ "." ++ "PrixAdh.€HT") =
      if ("Urnes" : String).toList.getLast? = some 's' && "Urnes" != "Poids" then
        String.mk ("Urnes" : String).toList.dropLast
      else "Urnes" :=
  c8_extract_product_type.2.2.2 "Urnes" "PrixAdh.€HT" (by decide)

/-! ### C10: a textual price raises -/

/-- C10: `clean_number` succeeds on `None` and numeric input but raises
`ValueError` on a textual value, and a monument row with a truthy
reference and a textual price makes `read_monuments` fail rather than
skip or zero the row. -/
theorem c10_textual_price_raises :
    clean_number (some (.s "sur devis")) 2 =
      .error "ValueError: could not convert string to float: sur devis" ∧
    read_monuments (fun _ _ => none)
      ⟨"visible", [[], [none, some (.s "M1"), none, none, none, some (.s "sur devis")]]⟩
      = .error "ValueError: could not convert string to float: sur devis" ∧
    clean_number none 2 = .ok none ∧
    clean_number (some (.i 5)) 2 = .ok (some (.i 5)) ∧
    clean_number (some (.f 125 1)) 2 = .ok (some (.f 1250 2)) := by
  refine ⟨by decide, by decide, by decide, by decide, by decide⟩

/-! ### Counterexamples for C1, C2, C3 -/

/-- C1 counterexample: on a sheet whose only header is `"Ligne"`, the
generic reader emits an item for a row that has no reference and no
price at all, contradicting the claim that every product reader
(including the generic fallback) requires both. -/
theorem c1_counterexample :
    read_generic_product (fun _ _ => none)
      ⟨"visible", [[some (.s "Ligne")], [some (.s "Haut")]]⟩ "Litho"
      = .ok [{ ligne := some "Haut" }] ∧
    ({ ligne := some "Haut" } : GenEntry).reference = none ∧
    ({ ligne := some "Haut" } : GenEntry).prix_ht = none ∧
    ({ ligne := some "Haut" } : GenEntry).prix_caractere_ht = none := by
  refine ⟨by decide, rfl, rfl, rfl⟩

/-- C2 counterexample: a weight row with reference `"A"` and an absent
value cell stores nothing at all — not a `0` — contradicting the claim
that an absent value collapses to a stored `0` for that reference. -/
theorem c2_counterexample :
    read_poids ⟨"visible", [[], [none, some (.s "A"), none]]⟩ = .ok [] ∧
    dictFind ([] : List (String × Value)) "A" = none := by
  exact ⟨by decide, rfl⟩

/-- C3 counterexample: the three-digit department `971` passes through
the zone-map reader unpadded, so its key has three characters, not two
digits. -/
theorem c3_counterexample :
    read_zones_transport ⟨"visible", [[], [some (.i 971)]]⟩ = [("971", "Zone 1")] ∧
    ("971" : String).toList.length ≠ 2 := by
  exact ⟨by decide, by decide⟩

/-! ### C1 (amended): the specialized readers' guard -/

/-- A monument row only emits when its reference cell is truthy and its
price cell non-`None`. -/
lemma read_monuments_row_cond (gfp : String → String → Option String) (row : Row)
    (e : MonEntry) (h : read_monuments_row gfp row = .ok (some e)) :
    pyTruthyOpt (cellv row 1) = true ∧ (cellv row 5).isSome = true := by
  unfold read_monuments_row at h
  split at h
  next rv heq =>
    dsimp only at h
    split at h
    next hc =>
      rw [Bool.and_eq_true] at hc
      simp only [pyTruthyOpt, heq]
      exact ⟨hc.1, hc.2⟩
    next hc => simp [pure, Except.pure] at h
  next heq => simp [pure, Except.pure] at h

/-- A semelle row only emits when its reference cell is truthy and its
price cell non-`None`. -/
lemma read_semelles_row_cond (row : Row) (e : SemEntry)
    (h : read_semelles_row row = .ok (some e)) :
    pyTruthyOpt (cellv row 1) = true ∧ (cellv row 5).isSome = true := by
  unfold read_semelles_row at h
  split at h
  next rv heq =>
    dsimp only at h
    split at h
    next hc =>
      rw [Bool.and_eq_true] at hc
      simp only [pyTruthyOpt, heq]
      exact ⟨hc.1, hc.2⟩
    next hc => simp [pure, Except.pure] at h
  next heq => simp [pure, Except.pure] at h

/-- An accessory row only emits when its reference cell is truthy and
its price cell non-`None`. -/
lemma read_accessoires_row_cond (gfp : String → String → Option String) (row : Row)
    (e : AccEntry) (h : read_accessoires_row gfp row = .ok (some e)) :
    pyTruthyOpt (cellv row 2) = true ∧ (cellv row 6).isSome = true := by
  unfold read_accessoires_row at h
  split at h
  next rv heq =>
    dsimp only at h
    split at h
    next hc =>
      rw [Bool.and_eq_true] at hc
      simp only [pyTruthyOpt, heq]
      exact ⟨hc.1, hc.2⟩
    next hc => simp [pure, Except.pure] at h
  next heq => simp [pure, Except.pure] at h

/-- An engraving row only emits when its reference cell is truthy and
its per-character price cell non-`None`. -/
lemma read_gravures_row_cond (row : Row) (e : GravEntry)
    (h : read_gravures_row row = .ok (some e)) :
    pyTruthyOpt (cellv row 1) = true ∧ (cellv row 2).isSome = true := by
  unfold read_gravures_row at h
  split at h
  next rv heq =>
    dsimp only at h
    split at h
    next hc =>
      rw [Bool.and_eq_true] at hc
      simp only [pyTruthyOpt, heq]
      exact ⟨hc.1, hc.2⟩
    next hc => simp [pure, Except.pure] at h
  next heq => simp [pure, Except.pure] at h

/-- A generic row's emitted entry has at least one field set. -/
lemma read_generic_row_nonempty (fp : String → Option String)
    (headers : List String) (row : Row) (e : GenEntry)
    (h : read_generic_row fp headers row = .ok (some e)) : e ≠ ({} : GenEntry) := by
  unfold read_generic_row at h
  dsimp only at h
  split at h
  next hall => simp [pure, Except.pure] at h
  next hall =>
    simp only [bind, Except.instMonad, Except.bind] at h
    cases hgo : genRowGo (row.map cell_val) headers.enum {} with
    | error msg => rw [hgo] at h; simp at h
    | ok e0 =>
      rw [hgo] at h
      dsimp only at h
      by_cases h0 : e0 = ({} : GenEntry)
      · rw [if_pos h0] at h; simp [pure, Except.pure] at h
      · rw [if_neg h0] at h
        by_cases href : (e0.reference.getD "" != "") = true
        · rw [if_pos href] at h
          simp only [pure, Except.pure, Except.ok.injEq, Option.some.injEq] at h
          subst h
          intro hcontra
          have href : e0.reference ≠ none := by
            intro hn
            rw [hn] at href
            simp at href
          apply href
          have := congrArg GenEntry.reference hcontra
          simpa using this
        · rw [if_neg href] at h
          simp only [pure, Except.pure, Except.ok.injEq, Option.some.injEq] at h
          subst h
          exact h0

/-- C1 (amended): each of the four specialized readers emits an item
only from a row whose reference cell is truthy and whose price cell is
non-`None`; the generic fallback reader instead emits an item exactly
when at least one header-matched field was set, even without reference
or price. -/
theorem c1_specialized_readers_guard :
    (∀ (gfp : String → String → Option String) (ws : Sheet) (items : List MonEntry),
      read_monuments gfp ws = .ok items → ∀ e ∈ items,
        ∃ row ∈ dataRows ws, pyTruthyOpt (cellv row 1) = true ∧
          (cellv row 5).isSome = true) ∧
    (∀ (ws : Sheet) (items : List SemEntry),
      read_semelles ws = .ok items → ∀ e ∈ items,
        ∃ row ∈ dataRows ws, pyTruthyOpt (cellv row 1) = true ∧
          (cellv row 5).isSome = true) ∧
    (∀ (gfp : String → String → Option String) (ws : Sheet) (items : List AccEntry),
      read_accessoires gfp ws = .ok items → ∀ e ∈ items,
        ∃ row ∈ dataRows ws, pyTruthyOpt (cellv row 2) = true ∧
          (cellv row 6).isSome = true) ∧
    (∀ (ws : Sheet) (items : List GravEntry),
      read_gravures ws = .ok items → ∀ e ∈ items,
        ∃ row ∈ dataRows ws, pyTruthyOpt (cellv row 1) = true ∧
          (cellv row 2).isSome = true) ∧
    (∀ (gfp : String → String → Option String) (ws : Sheet) (pt : String)
      (items : List GenEntry),
      read_generic_product gfp ws pt = .ok items → ∀ e ∈ items,
        e ≠ ({} : GenEntry)) := by
  refine ⟨?_, ?_, ?_, ?_, ?_⟩
  · intro gfp ws items h e he
    obtain ⟨row, hrow, hre⟩ := mapRowsExcept_mem _ _ _ h e he
    exact ⟨row, hrow, read_monuments_row_cond gfp row e hre⟩
  · intro ws items h e he
    obtain ⟨row, hrow, hre⟩ := mapRowsExcept_mem _ _ _ h e he
    exact ⟨row, hrow, read_semelles_row_cond row e hre⟩
  · intro gfp ws items h e he
    obtain ⟨row, hrow, hre⟩ := mapRowsExcept_mem _ _ _ h e he
    exact ⟨row, hrow, read_accessoires_row_cond gfp row e hre⟩
  · intro ws items h e he
    obtain ⟨row, hrow, hre⟩ := mapRowsExcept_mem _ _ _ h e he
    exact ⟨row, hrow, read_gravures_row_cond row e hre⟩
  · intro gfp ws pt items h e he
    obtain ⟨row, _, hre⟩ := mapRowsExcept_mem _ _ _ h e he
    exact read_generic_row_nonempty _ _ row e hre

/-! ### C2 (amended): the weight table -/

/-- Every binding produced by the weight-table fold comes from the
initial dict or from a qualifying row (truthy reference, non-`None`
value), with the stored weight `0` for a falsy raw value and the rounded
value for a truthy one. -/
lemma read_poids_go_mem :
    ∀ (rows : List Row) (acc m : List (String × Value)),
      read_poids_go acc rows = .ok m → ∀ k w, (k, w) ∈ m →
        (k, w) ∈ acc ∨ ∃ row ∈ rows, ∃ rv vv, cellv row 1 = some rv ∧
          pyTruthy rv = true ∧ cellv row 2 = some vv ∧ k = pyStr rv ∧
          ((pyTruthy vv = false ∧ w = .i 0) ∨
            (pyTruthy vv = true ∧ cleanVal vv 3 = .ok w)) := by
  intro rows
  induction rows with
  | nil =>
    intro acc m h k w hm
    simp only [read_poids_go] at h
    cases h
    exact Or.inl hm
  | cons row rest ih =>
    intro acc m h k w hm
    simp only [read_poids_go, bind, Except.instMonad, Except.bind] at h
    cases hr : read_poids_row acc row with
    | error msg => rw [hr] at h; simp at h
    | ok acc' =>
      rw [hr] at h
      dsimp only at h
      rcases ih acc' m h k w hm with hacc' | ⟨row', hrow', hprop⟩
      · -- analyse how the row built acc'
        unfold read_poids_row at hr
        split at hr
        next rv vv heq1 heq2 =>
          by_cases htr : pyTruthy rv = true
          · rw [if_pos htr] at hr
            simp only [bind, Except.instMonad, Except.bind] at hr
            cases hw : (if pyTruthy vv = true then cleanVal vv 3 else Except.ok (.i 0)) with
            | error msg => rw [hw] at hr; simp at hr
            | ok w0 =>
              rw [hw] at hr
              simp only [pure, Except.pure, Except.ok.injEq] at hr
              subst hr
              rcases mem_dictInsert _ _ _ _ hacc' with hnew | hold
              · have hk : k = pyStr rv := congrArg Prod.fst hnew
                have hww : w = w0 := congrArg Prod.snd hnew
                subst hww
                refine Or.inr ⟨row, List.mem_cons_self _ _, rv, vv, heq1, htr, heq2, hk, ?_⟩
                by_cases htv : pyTruthy vv = true
                · rw [if_pos htv] at hw
                  exact Or.inr ⟨htv, hw⟩
                · rw [if_neg htv] at hw
                  exact Or.inl ⟨Bool.not_eq_true _ ▸ htv, (Except.ok.inj hw).symm⟩
              · exact Or.inl hold
          · rw [if_neg htr] at hr
            simp only [pure, Except.pure, Except.ok.injEq] at hr
            subst hr
            exact Or.inl hacc'
        next hne =>
          simp only [pure, Except.pure, Except.ok.injEq] at hr
          subst hr
          exact Or.inl hacc'
      · exact Or.inr ⟨row', List.mem_cons_of_mem _ hrow', hprop⟩

/-- The weight-table fold keeps every key of the accumulator, and binds
the reference of every qualifying row. -/
lemma read_poids_go_keys :
    ∀ (rows : List Row) (acc m : List (String × Value)),
      read_poids_go acc rows = .ok m →
        (∀ k, (∃ w, (k, w) ∈ acc) → ∃ w, (k, w) ∈ m) ∧
        (∀ row ∈ rows, ∀ rv vv, cellv row 1 = some rv → pyTruthy rv = true →
          cellv row 2 = some vv → ∃ w, (pyStr rv, w) ∈ m) := by
  intro rows
  induction rows with
  | nil =>
    intro acc m h
    simp only [read_poids_go] at h
    cases h
    exact ⟨fun k hk => hk, fun row hrow => absurd hrow (List.not_mem_nil _)⟩
  | cons row rest ih =>
    intro acc m h
    simp only [read_poids_go, bind, Except.instMonad, Except.bind] at h
    cases hr : read_poids_row acc row with
    | error msg => rw [hr] at h; simp at h
    | ok acc' =>
      rw [hr] at h
      dsimp only at h
      have hkeys : ∀ k, (∃ w, (k, w) ∈ acc) → ∃ w, (k, w) ∈ acc' := by
        intro k ⟨w0, hw0⟩
        unfold read_poids_row at hr
        split at hr
        next rv vv heq1 heq2 =>
          by_cases htr : pyTruthy rv = true
          · rw [if_pos htr] at hr
            simp only [bind, Except.instMonad, Except.bind] at hr
            cases hw : (if pyTruthy vv = true then cleanVal vv 3 else Except.ok (.i 0)) with
            | error msg => rw [hw] at hr; simp at hr
            | ok w1 =>
              rw [hw] at hr
              simp only [pure, Except.pure, Except.ok.injEq] at hr
              subst hr
              exact key_mem_dictInsert_of_mem _ _ _ _ _ hw0
          · rw [if_neg htr] at hr
            simp only [pure, Except.pure, Except.ok.injEq] at hr
            subst hr
            exact ⟨w0, hw0⟩
        next hne =>
          simp only [pure, Except.pure, Except.ok.injEq] at hr
          subst hr
          exact ⟨w0, hw0⟩
      refine ⟨fun k hk => (ih acc' m h).1 k (hkeys k hk), ?_⟩
      intro row0 hrow0 rv vv heq1 htr heq2
      rcases List.mem_cons.mp hrow0 with hhead | htail
      · -- the head row itself: it binds pyStr rv in acc'
        subst hhead
        unfold read_poids_row at hr
        rw [heq1, heq2] at hr
        dsimp only at hr
        rw [if_pos htr] at hr
        simp only [bind, Except.instMonad, Except.bind] at hr
        cases hw : (if pyTruthy vv = true then cleanVal vv 3 else Except.ok (.i 0)) with
        | error msg => rw [hw] at hr; simp at hr
        | ok w1 =>
          rw [hw] at hr
          simp only [pure, Except.pure, Except.ok.injEq] at hr
          subst hr
          exact (ih _ m h).1 (pyStr rv) ⟨w1, self_mem_dictInsert _ _ _⟩
      · exact (ih acc' m h).2 row0 htail rv vv heq1 htr heq2

/-- C2 (amended): a weight entry exists exactly for the rows with a
truthy reference and a non-`None` value cell; a falsy-but-present raw
value stores weight `0`, a truthy one stores the value rounded to three
decimals; an absent value stores nothing (see the counterexample). -/
theorem c2_weight_table :
    (∀ (ws : Sheet) (m : List (String × Value)), read_poids ws = .ok m →
      ∀ k w, (k, w) ∈ m →
        ∃ row ∈ dataRows ws, ∃ rv vv, cellv row 1 = some rv ∧
          pyTruthy rv = true ∧ cellv row 2 = some vv ∧ k = pyStr rv ∧
          ((pyTruthy vv = false ∧ w = .i 0) ∨
            (pyTruthy vv = true ∧ cleanVal vv 3 = .ok w))) ∧
    (∀ (ws : Sheet) (m : List (String × Value)), read_poids ws = .ok m →
      ∀ row ∈ dataRows ws, ∀ rv vv, cellv row 1 = some rv → pyTruthy rv = true →
        cellv row 2 = some vv → ∃ w, (pyStr rv, w) ∈ m) := by
  constructor
  · intro ws m h k w hm
    rcases read_poids_go_mem _ _ _ h k w hm with h0 | h1
    · simp at h0
    · exact h1
  · intro ws m h
    exact (read_poids_go_keys _ _ _ h).2

/-- C2 witness: the membership clause applied to a sheet whose one row
binds reference `"A"` to the literal weight `0`. -/
theorem c2_witness :
    ∃ row ∈ dataRows ⟨"visible", [[], [none, some (.s "A"), some (.i 0)]]⟩,
      ∃ rv vv, cellv row 1 = some rv ∧ pyTruthy rv = true ∧
        cellv row 2 = some vv ∧ "A" = pyStr rv ∧
        ((pyTruthy vv = false ∧ Value.i 0 = .i 0) ∨
          (pyTruthy vv = true ∧ cleanVal vv 3 = .ok (.i 0))) :=
  c2_weight_table.1 ⟨"visible", [[], [none, some (.s "A"), some (.i 0)]]⟩
    [("A", .i 0)] (by decide) "A" (.i 0) (by decide)

/-! ### C3 (amended): department-code padding -/

/-- Every binding the zone reader's column loop adds comes from a
non-`None` cell of the row, keyed by the padded department string. -/
lemma read_zones_cell_foldl_mem (row : Row) :
    ∀ (idxs : List ℕ) (acc : List (String × String)) (p : String × String),
      p ∈ idxs.foldl (read_zones_cell row) acc →
        p ∈ acc ∨ ∃ i ∈ idxs, ∃ v, cellv row i = some v ∧
          p.1 = padDept (deptStr v) := by
  intro idxs
  induction idxs with
  | nil => intro acc p hp; exact Or.inl hp
  | cons i rest ih =>
    intro acc p hp
    simp only [List.foldl_cons] at hp
    rcases ih _ p hp with hacc | ⟨i', hi', hv⟩
    · unfold read_zones_cell at hacc
      split at hacc
      next d heq =>
        rcases mem_dictInsert _ _ _ _ hacc with hnew | hold
        · exact Or.inr ⟨i, List.mem_cons_self _ _, d, heq, congrArg Prod.fst hnew⟩
        · exact Or.inl hold
      next heq => exact Or.inl hacc
    · exact Or.inr ⟨i', List.mem_cons_of_mem _ hi', hv⟩

/-- Every binding produced by the zone reader comes from a cell of a
data row, keyed by the padded department string. -/
lemma read_zones_rows_mem :
    ∀ (rows : List Row) (acc : List (String × String)) (p : String × String),
      p ∈ rows.foldl read_zones_row acc →
        p ∈ acc ∨ ∃ row ∈ rows, ∃ i ∈ List.range 6, ∃ v,
          cellv row i = some v ∧ p.1 = padDept (deptStr v) := by
  intro rows
  induction rows with
  | nil => intro acc p hp; exact Or.inl hp
  | cons row rest ih =>
    intro acc p hp
    simp only [List.foldl_cons] at hp
    rcases ih _ p hp with hacc | ⟨row', hrow', hv⟩
    · rcases read_zones_cell_foldl_mem row _ _ p hacc with h0 | ⟨i, hi, v, hcell, hk⟩
      · exact Or.inl h0
      · exact Or.inr ⟨row, List.mem_cons_self _ _, i, hi, v, hcell, hk⟩
    · exact Or.inr ⟨row', List.mem_cons_of_mem _ hrow', hv⟩

/-- The type block leaves the department list unchanged. -/
lemma listes_typ_upd_departements (acc : ListsAcc) (tv : Option Value) :
    (listes_typ_upd acc tv).departements = acc.departements := by
  unfold listes_typ_upd
  repeat' split
  all_goals rfl

/-- The monument-line block leaves the department list unchanged. -/
lemma listes_lm_upd_departements (acc : ListsAcc) (lm : Option Value) :
    (listes_lm_upd acc lm).departements = acc.departements := by
  unfold listes_lm_upd
  repeat' split
  all_goals rfl

/-- The accessory-line block leaves the department list unchanged. -/
lemma listes_la_upd_departements (acc : ListsAcc) (la : Option Value) :
    (listes_la_upd acc la).departements = acc.departements := by
  unfold listes_la_upd
  repeat' split
  all_goals rfl

/-- A department entry added by the department block comes from the
row's department cell, padded. -/
lemma listes_dept_upd_mem (acc : ListsAcc) (dept zone : Option Value) (d : DeptEntry)
    (hd : d ∈ (listes_dept_upd acc dept zone).departements) :
    d ∈ acc.departements ∨ ∃ v, dept = some v ∧
      d.departement = padDept (deptStr v) := by
  unfold listes_dept_upd at hd
  split at hd
  next o1 o2 dv zv =>
    dsimp only at hd
    split at hd
    next htr =>
      split at hd
      next hdup => exact Or.inl hd
      next hdup =>
        simp only [List.mem_append, List.mem_singleton] at hd
        rcases hd with hold | hnew
        · exact Or.inl hold
        · exact Or.inr ⟨dv, rfl, by rw [hnew]⟩
    next htr => exact Or.inl hd
  all_goals exact Or.inl hd

/-- Every department entry of the `LISTES` fold comes from a data row's
department cell, padded. -/
lemma read_listes_rows_dept :
    ∀ (rows : List Row) (acc : ListsAcc) (d : DeptEntry),
      d ∈ (rows.foldl read_listes_row acc).departements →
        d ∈ acc.departements ∨ ∃ row ∈ rows, ∃ v,
          cellv row 0 = some v ∧ d.departement = padDept (deptStr v) := by
  intro rows
  induction rows with
  | nil => intro acc d hd; exact Or.inl hd
  | cons row rest ih =>
    intro acc d hd
    simp only [List.foldl_cons] at hd
    rcases ih _ d hd with hacc | ⟨row', hrow', hv⟩
    · unfold read_listes_row at hacc
      rcases listes_dept_upd_mem _ _ _ d hacc with h0 | ⟨v, hv, hk⟩
      · rw [listes_la_upd_departements, listes_lm_upd_departements,
          listes_typ_upd_departements] at h0
        exact Or.inl h0
      · exact Or.inr ⟨row, List.mem_cons_self _ _, v, hv, hk⟩
    · exact Or.inr ⟨row', List.mem_cons_of_mem _ hrow', hv⟩

/-- C3 (amended): every department key of the zone map and every
`departements` entry of the Lists reader is `padDept (deptStr v)` for
some department cell `v` of the sheet, where `padDept` prepends exactly
one `0` to a single-digit string and leaves every other string — in
particular a three-digit department — unchanged. -/
theorem c3_dept_code_padding :
    (∀ (ws : Sheet) (k z : String), (k, z) ∈ read_zones_transport ws →
      ∃ row ∈ dataRows ws, ∃ i ∈ List.range 6, ∃ v,
        cellv row i = some v ∧ k = padDept (deptStr v)) ∧
    (∀ (ws : Sheet) (d : DeptEntry), d ∈ (read_listes ws).2.2.2 →
      ∃ row ∈ dataRows ws, ∃ v,
        cellv row 0 = some v ∧ d.departement = padDept (deptStr v)) ∧
    (∀ s : String,
      (s.toList.length = 1 ∧ s.toList.all Char.isDigit = true →
        (padDept s).toList.length = 2) ∧
      (¬(s.toList.length = 1 ∧ s.toList.all Char.isDigit = true) →
        padDept s = s)) := by
  refine ⟨?_, ?_, ?_⟩
  · intro ws k z hkz
    rcases read_zones_rows_mem _ _ _ hkz with h0 | h1
    · simp at h0
    · exact h1
  · intro ws d hd
    unfold read_listes at hd
    rcases read_listes_rows_dept _ _ _ hd with h0 | h1
    · simp at h0
    · exact h1
  · intro s
    constructor
    · rintro ⟨h1, h2⟩
      simp only [padDept]
      rw [if_pos (by rw [Bool.and_eq_true, decide_eq_true_iff]; exact ⟨h1, h2⟩)]
      show ("0".data ++ s.data).length = 2
      rw [List.length_append]
      have : s.toList.length = 1 := h1
      simp only [String.toList] at this
      simp [this]
    · intro hn
      simp only [padDept]
      rw [if_neg]
      intro hc
      rw [Bool.and_eq_true, decide_eq_true_iff] at hc
      exact hn ⟨hc.1, hc.2⟩

/-- C3 witness: the zone-map clause applied to a single-digit
department `5`, whose key is padded to `"05"`. -/
theorem c3_witness :
    ∃ row ∈ dataRows ⟨"visible", [[], [some (.i 5)]]⟩, ∃ i ∈ List.range 6, ∃ v,
      cellv row i = some v ∧ "05" = padDept (deptStr v) :=
  c3_dept_code_padding.1 ⟨"visible", [[], [some (.i 5)]]⟩ "05" "Zone 1" (by decide)

/-! ### C9: the six expected keys -/

/-- A key found in a dict is bound in it. -/
lemma mem_of_dictFind_eq_some {β : Type} :
    ∀ (d : List (String × β)) (k : String) (v : β),
      dictFind d k = some v → (k, v) ∈ d := by
  intro d
  induction d with
  | nil => intro k v h; simp [dictFind] at h
  | cons q rest ih =>
    intro k v h
    obtain ⟨k', v'⟩ := q
    simp only [dictFind] at h
    by_cases hq : k' = k
    · rw [if_pos hq] at h
      cases h
      subst hq
      exact List.mem_cons_self _ _
    · rw [if_neg hq] at h
      exact List.mem_cons_of_mem _ (ih k v h)

/-- Appending a fresh binding makes the key found. -/
lemma dictFind_append_of_none {β : Type} :
    ∀ (d : List (String × β)) (k : String) (v : β),
      dictFind d k = none → dictFind (d ++ [(k, v)]) k = some v := by
  intro d
  induction d with
  | nil => intro k v _; simp [dictFind]
  | cons q rest ih =>
    intro k v h
    obtain ⟨k', v'⟩ := q
    simp only [dictFind, List.cons_append] at h ⊢
    by_cases hq : k' = k
    · rw [if_pos hq] at h; cases h
    · rw [if_neg hq] at h ⊢
      exact ih k v h

/-- A found key stays found (with the same value) after appending. -/
lemma dictFind_append_left {β : Type} :
    ∀ (d l : List (String × β)) (k : String) (v : β),
      dictFind d k = some v → dictFind (d ++ l) k = some v := by
  intro d
  induction d with
  | nil => intro l k v h; simp [dictFind] at h
  | cons q rest ih =>
    intro l k v h
    obtain ⟨k', v'⟩ := q
    simp only [dictFind, List.cons_append] at h ⊢
    by_cases hq : k' = k
    · rwa [if_pos hq] at h ⊢
    · rw [if_neg hq] at h ⊢
      exact ih l k v h

/-- Inserting a different key does not change a lookup. -/
lemma dictFind_dictInsert_ne {β : Type} :
    ∀ (d : List (String × β)) (k k' : String) (v : β), k ≠ k' →
      dictFind (dictInsert k' v d) k = dictFind d k := by
  intro d
  induction d with
  | nil =>
    intro k k' v h
    simp only [dictInsert, dictFind]
    rw [if_neg (Ne.symm h)]
  | cons q rest ih =>
    intro k k' v h
    obtain ⟨k0, v0⟩ := q
    simp only [dictInsert]
    by_cases hq : k0 = k'
    · simp only [if_pos hq, dictFind]
      rw [if_neg (Ne.symm h), if_neg (hq ▸ fun hc => h hc.symm)]
    · simp only [if_neg hq, dictFind]
      by_cases hq2 : k0 = k
      · rw [if_pos hq2, if_pos hq2]
      · rw [if_neg hq2, if_neg hq2]
        exact ih k k' v h

/-- Each product tab contributes a list-valued binding. -/
lemma read_product_tab_isList (gfp : String → String → Option String) (wb : Workbook)
    (t : String) (kv : String × DVal) (h : read_product_tab gfp wb t = .ok kv) :
    kv.2.isList = true := by
  unfold read_product_tab at h
  simp only [bind, Except.instMonad, Except.bind] at h
  cases hs : getSheet wb t with
  | error m => rw [hs] at h; simp at h
  | ok ws =>
    rw [hs] at h
    dsimp only at h
    split at h
    · cases hr : read_monuments gfp ws with
      | error m => rw [hr] at h; simp at h
      | ok items => rw [hr] at h; simp only [pure, Except.pure, Except.ok.injEq] at h
                    subst h; rfl
    · split at h
      · cases hr : read_semelles ws with
        | error m => rw [hr] at h; simp at h
        | ok items => rw [hr] at h; simp only [pure, Except.pure, Except.ok.injEq] at h
                      subst h; rfl
      · split at h
        · cases hr : read_accessoires gfp ws with
          | error m => rw [hr] at h; simp at h
          | ok items => rw [hr] at h; simp only [pure, Except.pure, Except.ok.injEq] at h
                        subst h; rfl
        · split at h
          · cases hr : read_gravures ws with
            | error m => rw [hr] at h; simp at h
            | ok items => rw [hr] at h; simp only [pure, Except.pure, Except.ok.injEq] at h
                          subst h; rfl
          · cases hr : read_generic_product gfp ws (extract_product_type t) with
            | error m => rw [hr] at h; simp at h
            | ok items => rw [hr] at h; simp only [pure, Except.pure, Except.ok.injEq] at h
                          subst h; rfl

/-- The product-tab fold only ever binds list values. -/
lemma product_fold_isList (gfp : String → String → Option String) (wb : Workbook) :
    ∀ (tabs : List String) (d d' : List (String × DVal)),
      tabs.foldlM (fun d tab => do
        let kv ← read_product_tab gfp wb tab
        pure (dictInsert kv.1 kv.2 d)) d = .ok d' →
      (∀ p ∈ d, p.2.isList = true) → ∀ p ∈ d', p.2.isList = true := by
  intro tabs
  induction tabs with
  | nil =>
    intro d d' h hPred
    simp only [List.foldlM] at h
    cases h
    exact hPred
  | cons t ts ih =>
    intro d d' h hPred
    simp only [List.foldlM, bind, Except.instMonad, Except.bind] at h
    cases ht : read_product_tab gfp wb t with
    | error m => rw [ht] at h; simp at h
    | ok kv =>
      rw [ht] at h
      dsimp only at h
      refine ih _ _ h ?_
      intro p hp
      rcases mem_dictInsert _ _ _ _ hp with hnew | hold
      · rw [hnew]
        exact read_product_tab_isList gfp wb t kv ht
      · exact hPred p hold

/-- One step of the expected-keys fill keeps every pair list-valued. -/
lemma fill_step_mem (d : List (String × DVal)) (k : String) (p : String × DVal)
    (hp : p ∈ (if (dictFind d k).isSome then d else d ++ [(k, DVal.emptyL)])) :
    p ∈ d ∨ p = (k, DVal.emptyL) := by
  split at hp
  · exact Or.inl hp
  · rcases List.mem_append.mp hp with h | h
    · exact Or.inl h
    · exact Or.inr (List.mem_singleton.mp h)

/-- One step of the expected-keys fill preserves found keys. -/
lemma fill_step_mono (d : List (String × DVal)) (k k0 : String) (v : DVal)
    (h : dictFind d k0 = some v) :
    dictFind (if (dictFind d k).isSome then d else d ++ [(k, DVal.emptyL)]) k0
      = some v := by
  split
  · exact h
  · exact dictFind_append_left _ _ _ _ h

/-- One step of the expected-keys fill makes its own key found. -/
lemma fill_step_self (d : List (String × DVal)) (k : String) :
    (dictFind (if (dictFind d k).isSome then d else d ++ [(k, DVal.emptyL)]) k).isSome
      = true := by
  split
  next hs => exact hs
  next hs =>
    rw [dictFind_append_of_none _ _ _ (Option.not_isSome_iff_eq_none.mp hs)]
    rfl

/-- The whole fill fold preserves found keys. -/
lemma fill_fold_mono (ks : List String) :
    ∀ (d : List (String × DVal)) (k0 : String) (v : DVal),
      dictFind d k0 = some v →
      dictFind (ks.foldl (fun d k =>
        if (dictFind d k).isSome then d else d ++ [(k, DVal.emptyL)]) d) k0 = some v := by
  induction ks with
  | nil => intro d k0 v h; exact h
  | cons k ks ih =>
    intro d k0 v h
    simp only [List.foldl_cons]
    exact ih _ k0 v (fill_step_mono d k k0 v h)

/-- After the fill fold, every pair is list-valued and every key of the
fold's list is found. -/
lemma fill_fold_spec (ks : List String) :
    ∀ (d : List (String × DVal)), (∀ p ∈ d, p.2.isList = true) →
      (∀ p ∈ ks.foldl (fun d k =>
        if (dictFind d k).isSome then d else d ++ [(k, DVal.emptyL)]) d,
        p.2.isList = true) ∧
      (∀ k ∈ ks, ((dictFind (ks.foldl (fun d k =>
        if (dictFind d k).isSome then d else d ++ [(k, DVal.emptyL)]) d) k).isSome
          = true)) := by
  induction ks with
  | nil =>
    intro d hPred
    exact ⟨hPred, fun k hk => absurd hk (List.not_mem_nil _)⟩
  | cons k ks ih =>
    intro d hPred
    simp only [List.foldl_cons]
    have hPred' : ∀ p ∈ (if (dictFind d k).isSome then d else d ++ [(k, DVal.emptyL)]),
        p.2.isList = true := by
      intro p hp
      rcases fill_step_mem d k p hp with h | h
      · exact hPred p h
      · rw [h]; rfl
    refine ⟨(ih _ hPred').1, ?_⟩
    intro k0 hk0
    rcases List.mem_cons.mp hk0 with rfl | hmem
    · have hs := fill_step_self d k0
      obtain ⟨v, hv⟩ := Option.isSome_iff_exists.mp hs
      rw [fill_fold_mono ks _ k0 v hv]
      rfl
    · exact (ih _ hPred').2 k0 hmem

/-- Inversion for a successful `Except` bind. -/
lemma bind_ok_inv {α β : Type} (x : Except String α) (f : α → Except String β) (b : β)
    (h : (x >>= f) = .ok b) : ∃ a, x = .ok a ∧ f a = .ok b := by
  cases x with
  | error e => simp [bind, Except.instMonad, Except.bind] at h
  | ok a => exact ⟨a, rfl, by simpa [bind, Except.instMonad, Except.bind] using h⟩

/-- A row-wise reader that emits nothing on any row collects the empty
list. -/
lemma mapRowsExcept_nil {α : Type} (f : Row → Except String (Option α)) :
    ∀ rows, (∀ row ∈ rows, f row = .ok none) →
      mapRowsExcept f rows = .ok ([] : List α) := by
  intro rows
  induction rows with
  | nil => intro _; rfl
  | cons r rs ih =>
    intro h
    have h1 := h r (List.mem_cons_self _ _)
    have h2 := ih (fun row hr => h row (List.mem_cons_of_mem _ hr))
    simp only [mapRowsExcept, h1, h2, bind, Except.instMonad, Except.bind, pure,
      Except.pure]

/-- A monument row with a falsy reference or an absent price emits
nothing. -/
lemma read_monuments_row_none (gfp : String → String → Option String) (row : Row)
    (h : pyTruthyOpt (cellv row 1) = false ∨ cellv row 5 = none) :
    read_monuments_row gfp row = .ok none := by
  unfold read_monuments_row
  dsimp only
  cases hcell : cellv row 1 with
  | none => rfl
  | some rv =>
    dsimp only
    rcases h with h | h
    · rw [hcell] at h
      simp only [pyTruthyOpt] at h
      rw [if_neg (by simp [h])]
      rfl
    · rw [if_neg (by simp [h])]
      rfl

/-- A semelle row with a falsy reference or an absent price emits
nothing. -/
lemma read_semelles_row_none (row : Row)
    (h : pyTruthyOpt (cellv row 1) = false ∨ cellv row 5 = none) :
    read_semelles_row row = .ok none := by
  unfold read_semelles_row
  dsimp only
  cases hcell : cellv row 1 with
  | none => rfl
  | some rv =>
    dsimp only
    rcases h with h | h
    · rw [hcell] at h
      simp only [pyTruthyOpt] at h
      rw [if_neg (by simp [h])]
      rfl
    · rw [if_neg (by simp [h])]
      rfl

/-- An accessory row with a falsy reference or an absent price emits
nothing. -/
lemma read_accessoires_row_none (gfp : String → String → Option String) (row : Row)
    (h : pyTruthyOpt (cellv row 2) = false ∨ cellv row 6 = none) :
    read_accessoires_row gfp row = .ok none := by
  unfold read_accessoires_row
  dsimp only
  cases hcell : cellv row 2 with
  | none => rfl
  | some rv =>
    dsimp only
    rcases h with h | h
    · rw [hcell] at h
      simp only [pyTruthyOpt] at h
      rw [if_neg (by simp [h])]
      rfl
    · rw [if_neg (by simp [h])]
      rfl

/-- An engraving row with a falsy reference or an absent price emits
nothing. -/
lemma read_gravures_row_none (row : Row)
    (h : pyTruthyOpt (cellv row 1) = false ∨ cellv row 2 = none) :
    read_gravures_row row = .ok none := by
  unfold read_gravures_row
  dsimp only
  cases hcell : cellv row 1 with
  | none => rfl
  | some rv =>
    dsimp only
    rcases h with h | h
    · rw [hcell] at h
      simp only [pyTruthyOpt] at h
      rw [if_neg (by simp [h])]
      rfl
    · rw [if_neg (by simp [h])]
      rfl

/-- The key just inserted is found with its new value. -/
lemma dictFind_dictInsert_self {β : Type} :
    ∀ (d : List (String × β)) (k : String) (v : β),
      dictFind (dictInsert k v d) k = some v := by
  intro d
  induction d with
  | nil => intro k v; simp [dictInsert, dictFind]
  | cons q rest ih =>
    intro k v
    obtain ⟨k0, v0⟩ := q
    simp only [dictInsert]
    by_cases hq : k0 = k
    · rw [if_pos hq]
      simp [dictFind]
    · rw [if_neg hq]
      simp only [dictFind]
      rw [if_neg hq]
      exact ih k v

/-- Appending a binding for a different key does not change a lookup. -/
lemma dictFind_append_ne {β : Type} :
    ∀ (d : List (String × β)) (k k' : String) (v' : β), k ≠ k' →
      dictFind (d ++ [(k', v')]) k = dictFind d k := by
  intro d
  induction d with
  | nil =>
    intro k k' v' h
    simp only [List.nil_append, dictFind]
    rw [if_neg (Ne.symm h)]
  | cons q rest ih =>
    intro k k' v' h
    obtain ⟨k0, v0⟩ := q
    simp only [List.cons_append, dictFind]
    by_cases hq : k0 = k
    · rw [if_pos hq, if_pos hq]
    · rw [if_neg hq, if_neg hq]
      exact ih k k' v' h

/-- A key of the fold's list that is unbound before the expected-keys
fill is bound to the literal empty list afterwards. -/
lemma fill_fold_none :
    ∀ (ks : List String) (d : List (String × DVal)) (k : String), k ∈ ks →
      dictFind d k = none →
      dictFind (ks.foldl (fun d k =>
        if (dictFind d k).isSome then d else d ++ [(k, DVal.emptyL)]) d) k
        = some DVal.emptyL := by
  intro ks
  induction ks with
  | nil => intro d k hk _; exact absurd hk (List.not_mem_nil _)
  | cons k' ks ih =>
    intro d k hk hnone
    simp only [List.foldl_cons]
    by_cases hkk : k' = k
    · subst hkk
      have hstep : dictFind (if (dictFind d k').isSome then d
          else d ++ [(k', DVal.emptyL)]) k' = some DVal.emptyL := by
        rw [if_neg (by simp [hnone])]
        exact dictFind_append_of_none _ _ _ hnone
      exact fill_fold_mono ks _ _ _ hstep
    · have hk' : k ∈ ks := by
        rcases List.mem_cons.mp hk with h | h
        · exact absurd h.symm hkk
        · exact h
      have hnone' : dictFind (if (dictFind d k').isSome then d
          else d ++ [(k', DVal.emptyL)]) k = none := by
        split
        · exact hnone
        · rw [dictFind_append_ne _ _ _ _ (fun hc => hkk hc.symm)]
          exact hnone
      exact ih _ k hk' hnone'

/-- If no product tab binds the key, the product fold leaves it
unbound. -/
lemma product_fold_absent (gfp : String → String → Option String) (wb : Workbook) :
    ∀ (tabs : List String) (d d' : List (String × DVal)) (k : String),
      tabs.foldlM (fun d tab => do
        let kv ← read_product_tab gfp wb tab
        pure (dictInsert kv.1 kv.2 d)) d = .ok d' →
      (∀ tab ∈ tabs, ∀ kv, read_product_tab gfp wb tab = .ok kv → kv.1 ≠ k) →
      dictFind d k = none → dictFind d' k = none := by
  intro tabs
  induction tabs with
  | nil =>
    intro d d' k h _ hnone
    simp only [List.foldlM] at h
    cases h
    exact hnone
  | cons t ts ih =>
    intro d d' k h habs hnone
    simp only [List.foldlM, bind, Except.instMonad, Except.bind] at h
    cases ht : read_product_tab gfp wb t with
    | error m => rw [ht] at h; simp at h
    | ok kv =>
      rw [ht] at h
      dsimp only at h
      refine ih _ _ k h
        (fun tab htab kv' h' => habs tab (List.mem_cons_of_mem _ htab) kv' h') ?_
      rw [dictFind_dictInsert_ne _ _ _ _
        (fun hc => habs t (List.mem_cons_self _ _) kv ht hc.symm)]
      exact hnone

/-- If every product tab that binds the key binds it to an empty list,
the product fold leaves the key unbound or bound to an empty list. -/
lemma product_fold_empty (gfp : String → String → Option String) (wb : Workbook) :
    ∀ (tabs : List String) (d d' : List (String × DVal)) (k : String),
      tabs.foldlM (fun d tab => do
        let kv ← read_product_tab gfp wb tab
        pure (dictInsert kv.1 kv.2 d)) d = .ok d' →
      (∀ tab ∈ tabs, ∀ kv, read_product_tab gfp wb tab = .ok kv → kv.1 = k →
        kv.2.isEmptyList = true) →
      (dictFind d k = none ∨ ∃ v, dictFind d k = some v ∧ v.isEmptyList = true) →
      (dictFind d' k = none ∨ ∃ v, dictFind d' k = some v ∧ v.isEmptyList = true) := by
  intro tabs
  induction tabs with
  | nil =>
    intro d d' k h _ hinv
    simp only [List.foldlM] at h
    cases h
    exact hinv
  | cons t ts ih =>
    intro d d' k h hemp hinv
    simp only [List.foldlM, bind, Except.instMonad, Except.bind] at h
    cases ht : read_product_tab gfp wb t with
    | error m => rw [ht] at h; simp at h
    | ok kv =>
      rw [ht] at h
      dsimp only at h
      refine ih _ _ k h
        (fun tab htab kv' h' => hemp tab (List.mem_cons_of_mem _ htab) kv' h') ?_
      by_cases hkk : kv.1 = k
      · subst hkk
        exact Or.inr ⟨kv.2, dictFind_dictInsert_self _ _ _,
          hemp t (List.mem_cons_self _ _) kv ht rfl⟩
      · rw [dictFind_dictInsert_ne _ _ _ _ (fun hc => hkk hc.symm)]
        exact hinv

/-- C9: whenever the assembler succeeds, each of the six expected keys
`monuments, semelles, accessoires, gravures, lithos, urnes` is bound in
the document to a list value — the literal `[]` when no detected product
tab dispatches to the key, and an empty list whenever every tab that
does dispatch to it produced an empty item list; no expected key is ever
omitted.  The trailing clauses ground "contains no qualifying rows": a
specialized reader whose every data row has a falsy reference or an
absent price yields `[]`, and the generic reader yields `[]` on a sheet
with no data rows. -/
theorem c9_expected_keys :
    (∀ (gfp : String → String → Option String) (wb : Workbook)
      (d : List (String × DVal)), build_data gfp wb = .ok d →
      ∀ k ∈ expected_keys, ∃ v, dictFind d k = some v ∧ v.isList = true ∧
        ((∀ tab ∈ detect_product_tabs wb, ∀ kv,
            read_product_tab gfp wb tab = .ok kv → kv.1 ≠ k) →
          v = DVal.emptyL) ∧
        ((∀ tab ∈ detect_product_tabs wb, ∀ kv,
            read_product_tab gfp wb tab = .ok kv → kv.1 = k →
            kv.2.isEmptyList = true) →
          v.isEmptyList = true)) ∧
    (∀ (gfp : String → String → Option String) (ws : Sheet),
      (∀ row ∈ dataRows ws, pyTruthyOpt (cellv row 1) = false ∨ cellv row 5 = none) →
      read_monuments gfp ws = .ok []) ∧
    (∀ ws : Sheet,
      (∀ row ∈ dataRows ws, pyTruthyOpt (cellv row 1) = false ∨ cellv row 5 = none) →
      read_semelles ws = .ok []) ∧
    (∀ (gfp : String → String → Option String) (ws : Sheet),
      (∀ row ∈ dataRows ws, pyTruthyOpt (cellv row 2) = false ∨ cellv row 6 = none) →
      read_accessoires gfp ws = .ok []) ∧
    (∀ ws : Sheet,
      (∀ row ∈ dataRows ws, pyTruthyOpt (cellv row 1) = false ∨ cellv row 2 = none) →
      read_gravures ws = .ok []) ∧
    (∀ (gfp : String → String → Option String) (ws : Sheet) (pt : String),
      dataRows ws = [] → read_generic_product gfp ws pt = .ok []) := by
  refine ⟨?_, ?_, ?_, ?_, ?_, ?_⟩
  · intro gfp wb d h k hk
    unfold build_data at h
    obtain ⟨gws, h1, h⟩ := bind_ok_inv _ _ _ h
    try dsimp only at h
    obtain ⟨pws, h2, h⟩ := bind_ok_inv _ _ _ h
    try dsimp only at h
    obtain ⟨poids, h3, h⟩ := bind_ok_inv _ _ _ h
    try dsimp only at h
    obtain ⟨zws, h4, h⟩ := bind_ok_inv _ _ _ h
    try dsimp only at h
    obtain ⟨tws, h5, h⟩ := bind_ok_inv _ _ _ h
    try dsimp only at h
    obtain ⟨tarifs, h6, h⟩ := bind_ok_inv _ _ _ h
    try dsimp only at h
    obtain ⟨lws, h7, h⟩ := bind_ok_inv _ _ _ h
    try dsimp only at h
    obtain ⟨data1, h8, h⟩ := bind_ok_inv _ _ _ h
    try dsimp only at h
    simp only [pure, Except.pure, Except.ok.injEq] at h
    subst h
    have hne : k ≠ "granits" ∧ k ≠ "poids" ∧ k ≠ "zones_transport" ∧
        k ≠ "tarifs_transport" ∧ k ≠ "departements" ∧ k ≠ "types" ∧
        k ≠ "lignes_monument" ∧ k ≠ "lignes_accessoire" := by
      simp only [expected_keys, List.mem_cons, List.not_mem_nil, or_false] at hk
      rcases hk with rfl | rfl | rfl | rfl | rfl | rfl <;>
        exact ⟨by decide, by decide, by decide, by decide, by decide, by decide,
          by decide, by decide⟩
    obtain ⟨n0, n1, n2, n3, n4, n5, n6, n7⟩ := hne
    rw [dictFind_dictInsert_ne _ _ _ _ n7, dictFind_dictInsert_ne _ _ _ _ n6,
      dictFind_dictInsert_ne _ _ _ _ n5, dictFind_dictInsert_ne _ _ _ _ n4,
      dictFind_dictInsert_ne _ _ _ _ n3, dictFind_dictInsert_ne _ _ _ _ n2,
      dictFind_dictInsert_ne _ _ _ _ n1]
    have hstart : dictFind [("granits", DVal.granits (read_granits gfp gws))] k
        = none := by
      simp only [dictFind]
      rw [if_neg (fun hc => n0 hc.symm)]
    have hPred1 : ∀ p ∈ data1, p.2.isList = true := by
      refine product_fold_isList gfp wb _ _ _ h8 ?_
      intro p hp
      rw [List.mem_singleton.mp hp]
      rfl
    have hspec := fill_fold_spec expected_keys data1 hPred1
    obtain ⟨v, hv⟩ := Option.isSome_iff_exists.mp (hspec.2 k hk)
    refine ⟨v, hv, hspec.1 _ (mem_of_dictFind_eq_some _ _ _ hv), ?_, ?_⟩
    · intro habs
      have h0 : dictFind data1 k = none :=
        product_fold_absent gfp wb _ _ _ k h8 habs hstart
      have h1 := fill_fold_none expected_keys data1 k hk h0
      rw [h1] at hv
      exact (Option.some.inj hv).symm
    · intro hemp
      rcases product_fold_empty gfp wb _ _ _ k h8 hemp (Or.inl hstart) with
        hn | ⟨v1, hv1, he1⟩
      · have h1 := fill_fold_none expected_keys data1 k hk hn
        rw [h1] at hv
        rw [← Option.some.inj hv]
        rfl
      · have h1 := fill_fold_mono expected_keys data1 k v1 hv1
        rw [h1] at hv
        rw [← Option.some.inj hv]
        exact he1
  · intro gfp ws h
    unfold read_monuments
    exact mapRowsExcept_nil _ _ (fun row hr => read_monuments_row_none gfp row (h row hr))
  · intro ws h
    unfold read_semelles
    exact mapRowsExcept_nil _ _ (fun row hr => read_semelles_row_none row (h row hr))
  · intro gfp ws h
    unfold read_accessoires
    exact mapRowsExcept_nil _ _ (fun row hr => read_accessoires_row_none gfp row (h row hr))
  · intro ws h
    unfold read_gravures
    exact mapRowsExcept_nil _ _ (fun row hr => read_gravures_row_none row (h row hr))
  · intro gfp ws pt h
    unfold read_generic_product
    dsimp only
    rw [h]
    rfl

/-- C9 witness: on a workbook with the five fixed sheets present but
empty and no product tabs, `"urnes"` is bound to the literal empty
list. -/
theorem c9_witness :
    ∃ d, build_data (fun _ _ => none)
      ⟨[("GRANITS", ⟨"visible", []⟩), ("Poids", ⟨"visible", []⟩),
        ("Zone.TFranco", ⟨"visible", []⟩), ("Tarif TFranco", ⟨"visible", []⟩),
        ("LISTES", ⟨"visible", []⟩)]⟩ = .ok d ∧
      ∃ v, dictFind d "urnes" = some v ∧ v.isList = true ∧ v = DVal.emptyL ∧
        v.isEmptyList = true := by
  obtain ⟨v, hv, hlist, habs, _hemp⟩ :=
    c9_expected_keys.1 (fun _ _ => none)
      ⟨[("GRANITS", ⟨"visible", []⟩), ("Poids", ⟨"visible", []⟩),
        ("Zone.TFranco", ⟨"visible", []⟩), ("Tarif TFranco", ⟨"visible", []⟩),
        ("LISTES", ⟨"visible", []⟩)]⟩ _ rfl "urnes" (by decide)
  have hvac : ∀ tab ∈ detect_product_tabs
      ⟨[("GRANITS", ⟨"visible", []⟩), ("Poids", ⟨"visible", []⟩),
        ("Zone.TFranco", ⟨"visible", []⟩), ("Tarif TFranco", ⟨"visible", []⟩),
        ("LISTES", ⟨"visible", []⟩)]⟩, ∀ kv,
      read_product_tab (fun _ _ => none)
        ⟨[("GRANITS", ⟨"visible", []⟩), ("Poids", ⟨"visible", []⟩),
          ("Zone.TFranco", ⟨"visible", []⟩), ("Tarif TFranco", ⟨"visible", []⟩),
          ("LISTES", ⟨"visible", []⟩)]⟩ tab = .ok kv → kv.1 ≠ "urnes" := by
    intro tab htab
    rw [show detect_product_tabs
      ⟨[("GRANITS", ⟨"visible", []⟩), ("Poids", ⟨"visible", []⟩),
        ("Zone.TFranco", ⟨"visible", []⟩), ("Tarif TFranco", ⟨"visible", []⟩),
        ("LISTES", ⟨"visible", []⟩)]⟩ = [] from rfl] at htab
    exact absurd htab (List.not_mem_nil _)
  have hempty := habs hvac
  exact ⟨_, rfl, v, hv, hlist, hempty, by rw [hempty]; rfl⟩

/-- C1 witness: the monument clause applied to a one-row sheet with
reference `"M1"` and price `100`. -/
theorem c1_witness :
    ∃ row ∈ dataRows ⟨"visible",
      [[], [none, some (.s "M1"), none, none, none, some (.i 100)]]⟩,
      pyTruthyOpt (cellv row 1) = true ∧ (cellv row 5).isSome = true :=
  c1_specialized_readers_guard.1 (fun _ _ => none)
    ⟨"visible", [[], [none, some (.s "M1"), none, none, none, some (.i 100)]]⟩
    [⟨"", "M1", "", 0, "", some (.i 100), none, none, none, none⟩]
    (by decide)
    ⟨"", "M1", "", 0, "", some (.i 100), none, none, none, none⟩
    (by decide)

end Build
